import Mathlib

/-!
Verification of the LEED Daylight Option 1 post-processing core
(`honeybee_radiance_postprocess/leed/leed.py`).

The development shallowly embeds the pure computational core of the module:

* Python dictionaries become ordered association lists (`StrDict`), which
  mirrors the insertion-order semantics of `dict` / `defaultdict(list)`.
* NumPy 2-D float arrays become `List (List ℚ)` (rows = sensors,
  columns = sun-up hours); float arithmetic is modelled exactly over `ℚ`.
* `-np.inf` markers become `⊥ : WithBot ℚ`.
* External collaborators (the annual-results store, the metric formulas,
  geometry) are parameters of the embedded functions, matching §6 of the
  specification which declares them out of scope.
-/

/-- Ordered association list standing for a Python `dict` keyed by strings. -/
abbrev StrDict (α : Type) : Type := List (String × α)

/-- `d[k]` lookup: the value at the first (and, with `dict` semantics, only)
occurrence of the key `k`. -/
def dictLookup {α : Type} : StrDict α → String → Option α
  | [], _ => none
  | p :: rest, k => if p.1 = k then some p.2 else dictLookup rest k

/-- `d[k] = v` assignment on a Python `dict`: replace the value at an existing
key in place, otherwise append the new key at the end. -/
def dictInsert {α : Type} : StrDict α → String → α → StrDict α
  | [], k, v => [(k, v)]
  | p :: rest, k, v => if p.1 = k then (k, v) :: rest else p :: dictInsert rest k v

/-- `d[k].append(v)` on a Python `defaultdict(list)`: append to the list at an
existing key, otherwise create the key with the one-element list. -/
def dictAppend : StrDict (List ℚ) → String → ℚ → StrDict (List ℚ)
  | [], k, v => [(k, [v])]
  | p :: rest, k, v =>
    if p.1 = k then (p.1, p.2 ++ [v]) :: rest else p :: dictAppend rest k v

/-- The `shade_transmittance` argument: either a single scalar used for every
aperture group, or a mapping keyed by aperture group. -/
inductive ShadeTransInput : Type where
  | scalar (value : ℚ)
  | mapping (m : StrDict ℚ)

/-- Embedding of `shade_transmittance_per_light_path`
(`leed.py`, lines 253-301).  Iterates the grid's light paths and builds
`shade_transmittances` (per light path the candidate multiplier list,
starting with the default multiplier `1`) together with the accumulated
global `shd_trans_dict`.  In the mapping branch an explicit entry wins,
otherwise a non-static light path gets the default `0.05` and the static
identifier gets `1`; in the scalar branch every non-static light path gets
the scalar and the static identifier gets `1`. -/
def shade_transmittance_per_light_path
    (light_paths : List String) (shade_transmittance : ShadeTransInput)
    (shd_trans_dict : StrDict ℚ) : StrDict (List ℚ) × StrDict ℚ :=
  match shade_transmittance with
  | .mapping m =>
    light_paths.foldl
      (fun (acc : StrDict (List ℚ) × StrDict ℚ) light_path =>
        match dictLookup m light_path with
        | some v =>
          (dictInsert acc.1 light_path [1, v], dictInsert acc.2 light_path v)
        | none =>
          if light_path ≠ "__static_apertures__" then
            (dictInsert acc.1 light_path [1, 5/100],
             dictInsert acc.2 light_path (5/100))
          else
            (dictInsert acc.1 light_path [1, 1], dictInsert acc.2 light_path 1))
      ([], shd_trans_dict)
  | .scalar shd_trans =>
    light_paths.foldl
      (fun (acc : StrDict (List ℚ) × StrDict ℚ) light_path =>
        if light_path ≠ "__static_apertures__" then
          (dictInsert acc.1 light_path [1, shd_trans],
           dictInsert acc.2 light_path shd_trans)
        else
          (dictInsert acc.1 light_path [1, 1], dictInsert acc.2 light_path 1))
      ([], shd_trans_dict)

/-- The multiplier that `shade_transmittance_per_light_path` resolves for one
light path (closed form of the per-iteration case split). -/
def resolvedMultiplier (shade_transmittance : ShadeTransInput)
    (light_path : String) : ℚ :=
  match shade_transmittance with
  | .mapping m =>
    match dictLookup m light_path with
    | some v => v
    | none => if light_path ≠ "__static_apertures__" then 5/100 else 1
  | .scalar shd_trans =>
    if light_path ≠ "__static_apertures__" then shd_trans else 1

/-- The candidate multiplier list stored per light path: the always-available
fully-open multiplier `1` followed by the resolved multiplier. -/
def resolvedEntry (shade_transmittance : ShadeTransInput)
    (light_path : String) : List ℚ :=
  [1, resolvedMultiplier shade_transmittance light_path]

lemma dictLookup_dictInsert_self {α : Type} (d : StrDict α) (k : String) (v : α) :
    dictLookup (dictInsert d k v) k = some v := by
  induction d with
  | nil => simp [dictInsert, dictLookup]
  | cons p rest ih =>
    by_cases h : p.1 = k
    · simp [dictInsert, h, dictLookup]
    · simp [dictInsert, h, dictLookup, ih]

lemma dictLookup_dictInsert_other {α : Type} (d : StrDict α) (k k' : String)
    (v : α) (hk : k' ≠ k) : dictLookup (dictInsert d k v) k' = dictLookup d k' := by
  have hne : ¬ (k = k') := fun hh => hk hh.symm
  induction d with
  | nil => simp [dictInsert, dictLookup, hne]
  | cons p rest ih =>
    by_cases h : p.1 = k
    · have hne' : ¬ (p.1 = k') := h ▸ hne
      simp [dictInsert, dictLookup, h, hne, hne']
    · by_cases h' : p.1 = k'
      · simp [dictInsert, dictLookup, h, h', hk]
      · simp [dictInsert, dictLookup, h, h', ih]

/-- Membership in a `dictInsert` result comes from the old entries or is the
new pair. -/
lemma mem_dictInsert {α : Type} {d : StrDict α} {k : String} {v : α}
    {p : String × α} (hp : p ∈ dictInsert d k v) : p ∈ d ∨ p = (k, v) := by
  induction d with
  | nil => simp [dictInsert] at hp; simp [hp]
  | cons q rest ih =>
    by_cases h : q.1 = k
    · simp [dictInsert, h] at hp
      rcases hp with hp | hp
      · right; simp [hp]
      · left; simp [hp]
    · simp [dictInsert, h] at hp
      rcases hp with hp | hp
      · left; simp [hp]
      · rcases ih hp with hq | hq
        · left; simp [hq]
        · right; exact hq

/-- A fold of `dictInsert` steps whose inserted value is a function of the key
alone: lookup afterwards returns the keyed value for processed keys and falls
through to the initial dictionary otherwise. -/
lemma dictLookup_foldl_dictInsert {α : Type} (f : String → α)
    (lps : List String) (d0 : StrDict α) (k : String) :
    dictLookup (lps.foldl (fun d lp => dictInsert d lp (f lp)) d0) k =
      if k ∈ lps then some (f k) else dictLookup d0 k := by
  induction lps generalizing d0 with
  | nil => simp
  | cons x rest ih =>
    simp only [List.foldl_cons, ih]
    by_cases hk : k ∈ rest
    · simp [hk]
    · by_cases hx : k = x
      · subst hx
        simp [hk, dictLookup_dictInsert_self]
      · simp [hk, hx, dictLookup_dictInsert_other d0 x k (f x) hx]

/-- Entries produced by a fold of key-driven `dictInsert` steps over an empty
dictionary all carry the keyed value. -/
lemma mem_foldl_dictInsert {α : Type} (f : String → α) (lps : List String)
    (d0 : StrDict α) {p : String × α}
    (hp : p ∈ lps.foldl (fun d lp => dictInsert d lp (f lp)) d0) :
    p ∈ d0 ∨ p.2 = f p.1 := by
  induction lps generalizing d0 with
  | nil => left; simpa using hp
  | cons x rest ih =>
    simp only [List.foldl_cons] at hp
    rcases ih _ hp with hq | hq
    · rcases mem_dictInsert hq with hr | hr
      · left; exact hr
      · right; simp [hr]
    · right; exact hq

/-- Splitting a fold over a pair whose two components advance independently. -/
lemma foldl_pair_split {α β γ : Type} (fA : α → γ → α) (fB : β → γ → β)
    (l : List γ) (a0 : α) (b0 : β) :
    l.foldl (fun acc x => (fA acc.1 x, fB acc.2 x)) (a0, b0) =
      (l.foldl fA a0, l.foldl fB b0) := by
  induction l generalizing a0 b0 with
  | nil => rfl
  | cons x rest ih => simp [ih]

/-- `shade_transmittance_per_light_path` in closed form: both returned
dictionaries are key-driven `dictInsert` folds of the resolved entry and the
resolved multiplier. -/
lemma shade_transmittance_per_light_path_eq
    (light_paths : List String) (st : ShadeTransInput) (d : StrDict ℚ) :
    shade_transmittance_per_light_path light_paths st d =
      (light_paths.foldl (fun acc lp => dictInsert acc lp (resolvedEntry st lp)) [],
       light_paths.foldl (fun acc lp => dictInsert acc lp (resolvedMultiplier st lp)) d) := by
  cases st with
  | mapping m =>
    show light_paths.foldl _ ([], d) = _
    have hstep :
        (fun (acc : StrDict (List ℚ) × StrDict ℚ) (light_path : String) =>
          match dictLookup m light_path with
          | some v =>
            (dictInsert acc.1 light_path [1, v], dictInsert acc.2 light_path v)
          | none =>
            if light_path ≠ "__static_apertures__" then
              (dictInsert acc.1 light_path [1, 5/100],
               dictInsert acc.2 light_path (5/100))
            else
              (dictInsert acc.1 light_path [1, 1], dictInsert acc.2 light_path 1)) =
        (fun acc light_path =>
          (dictInsert acc.1 light_path (resolvedEntry (.mapping m) light_path),
           dictInsert acc.2 light_path (resolvedMultiplier (.mapping m) light_path))) := by
      funext acc lp
      cases h : dictLookup m lp with
      | some v => simp [resolvedEntry, resolvedMultiplier, h]
      | none =>
        by_cases hs : lp ≠ "__static_apertures__" <;>
          simp [resolvedEntry, resolvedMultiplier, h, hs]
    rw [hstep]
    exact foldl_pair_split
      (fun a lp => dictInsert a lp (resolvedEntry (.mapping m) lp))
      (fun b lp => dictInsert b lp (resolvedMultiplier (.mapping m) lp))
      light_paths [] d
  | scalar v =>
    show light_paths.foldl _ ([], d) = _
    have hstep :
        (fun (acc : StrDict (List ℚ) × StrDict ℚ) (light_path : String) =>
          if light_path ≠ "__static_apertures__" then
            (dictInsert acc.1 light_path [1, v], dictInsert acc.2 light_path v)
          else
            (dictInsert acc.1 light_path [1, 1], dictInsert acc.2 light_path 1)) =
        (fun acc light_path =>
          (dictInsert acc.1 light_path (resolvedEntry (.scalar v) light_path),
           dictInsert acc.2 light_path (resolvedMultiplier (.scalar v) light_path))) := by
      funext acc lp
      by_cases hs : lp ≠ "__static_apertures__" <;>
        simp [resolvedEntry, resolvedMultiplier, hs]
    rw [hstep]
    exact foldl_pair_split
      (fun a lp => dictInsert a lp (resolvedEntry (.scalar v) lp))
      (fun b lp => dictInsert b lp (resolvedMultiplier (.scalar v) lp))
      light_paths [] d

/-! ### Matrices and array operations -/

/-- A NumPy 2-D array: rows = sensors, columns = sun-up hours. -/
abbrev Mat : Type := List (List ℚ)

/-- `array * value`: elementwise scaling of an illuminance matrix. -/
def matScale (value : ℚ) (m : Mat) : Mat :=
  m.map (fun row => row.map (fun x => x * value))

/-- Elementwise sum of two matrices of the same shape. -/
def matAdd (a b : Mat) : Mat :=
  List.zipWith (fun ra rb => List.zipWith (· + ·) ra rb) a b

/-- Python `sum(arrays)` over a non-empty list of matrices. -/
def matSum : List Mat → Mat
  | [] => []
  | a :: rest => rest.foldl matAdd a

/-- `itertools.product(*values)`: the cartesian product of the per-light-path
candidate lists, the first list varying slowest. -/
def listProduct {α : Type} : List (List α) → List (List α)
  | [] => [[]]
  | xs :: rest => xs.flatMap (fun x => (listProduct rest).map (fun l => x :: l))

/-- Modelled from the spec: `filter_array2d` of
`honeybee_radiance_postprocess.util` (not under `src/`), which restricts the
columns of a 2-D array to those sun-up hours whose occupancy-mask entry is
set ("restricted to occupied hours", spec §4.2).  This is the row-wise
filtering step. -/
def filter_row {α : Type} : List Bool → List α → List α
  | true :: mask, x :: xs => x :: filter_row mask xs
  | false :: mask, _ :: xs => filter_row mask xs
  | _, _ => []

/-- Modelled from the spec: `filter_array2d` applied to every row of the
array. -/
def filter_array2d {α : Type} (m : List (List α)) (occ_mask : List Bool) :
    List (List α) :=
  m.map (fun row => filter_row occ_mask row)

/-- The sun-up-hour indices flagged as occupied by the mask, in order.  The
`h`-th column of a filtered row is the `occIndices`-th column of the original
row. -/
def occIndices : List Bool → List ℕ
  | [] => []
  | b :: mask => (if b then [0] else []) ++ (occIndices mask).map (· + 1)

lemma occIndices_cons_true (m : List Bool) :
    occIndices (true :: m) = 0 :: (occIndices m).map (· + 1) := by
  simp [occIndices]

lemma occIndices_cons_false (m : List Bool) :
    occIndices (false :: m) = (occIndices m).map (· + 1) := by
  simp [occIndices]

lemma occIndices_lt {mask : List Bool} :
    ∀ j ∈ occIndices mask, j < mask.length := by
  induction mask with
  | nil => simp [occIndices]
  | cons b m ih =>
    intro j hj
    cases b with
    | true =>
      rw [occIndices_cons_true] at hj
      rcases List.mem_cons.mp hj with rfl | hj
      · simp
      · simp only [List.mem_map] at hj
        obtain ⟨i, hi, rfl⟩ := hj
        have := ih i hi
        simp only [List.length_cons]
        omega
    | false =>
      rw [occIndices_cons_false] at hj
      simp only [List.mem_map] at hj
      obtain ⟨i, hi, rfl⟩ := hj
      have := ih i hi
      simp only [List.length_cons]
      omega

lemma getD_map_succ (l : List ℕ) {h : ℕ} (hh : h < l.length) :
    (l.map (· + 1)).getD h 0 = l.getD h 0 + 1 := by
  induction l generalizing h with
  | nil => simp at hh
  | cons x xs ih =>
    cases h with
    | zero => simp
    | succ h' => simpa using ih (Nat.lt_of_succ_lt_succ hh)

/-- Every position `h` of `occIndices` points at an hour flagged occupied. -/
lemma occIndices_getD_mask {mask : List Bool} {h : ℕ}
    (hh : h < (occIndices mask).length) :
    mask.getD ((occIndices mask).getD h 0) false = true := by
  induction mask generalizing h with
  | nil => simp [occIndices] at hh
  | cons b m ih =>
    cases b with
    | true =>
      rw [occIndices_cons_true] at hh ⊢
      cases h with
      | zero => simp
      | succ h' =>
        have hh' : h' < (occIndices m).length := by
          simp at hh; omega
        rw [List.getD_cons_succ, getD_map_succ _ hh', List.getD_cons_succ]
        exact ih hh'
    | false =>
      rw [occIndices_cons_false] at hh ⊢
      have hh' : h < (occIndices m).length := by simpa using hh
      rw [getD_map_succ _ hh', List.getD_cons_succ]
      exact ih hh'

lemma filter_row_length {α : Type} (mask : List Bool) (xs : List α)
    (hlen : mask.length = xs.length) :
    (filter_row mask xs).length = (occIndices mask).length := by
  induction mask generalizing xs with
  | nil => cases xs <;> simp [filter_row, occIndices]
  | cons b m ih =>
    cases xs with
    | nil => simp at hlen
    | cons x rest =>
      have hlen' : m.length = rest.length := by simpa using hlen
      cases b with
      | true => simp [filter_row, occIndices_cons_true, ih rest hlen']
      | false => simp [filter_row, occIndices_cons_false, ih rest hlen']

/-- The `h`-th entry of an occupancy-filtered row is the entry of the original
row at the `h`-th occupied sun-up-hour index. -/
lemma filter_row_getD {α : Type} (mask : List Bool) (xs : List α) (d : α)
    (hlen : mask.length = xs.length) {h : ℕ}
    (hh : h < (occIndices mask).length) :
    (filter_row mask xs).getD h d = xs.getD ((occIndices mask).getD h 0) d := by
  induction mask generalizing xs h with
  | nil => simp [occIndices] at hh
  | cons b m ih =>
    cases xs with
    | nil => simp at hlen
    | cons x rest =>
      have hlen' : m.length = rest.length := by simpa using hlen
      cases b with
      | true =>
        rw [occIndices_cons_true] at hh ⊢
        cases h with
        | zero => simp [filter_row]
        | succ h' =>
          have hh' : h' < (occIndices m).length := by simp at hh; omega
          rw [List.getD_cons_succ, getD_map_succ _ hh']
          simpa [filter_row] using ih rest hlen' hh'
      | false =>
        rw [occIndices_cons_false] at hh ⊢
        have hh' : h < (occIndices m).length := by simpa using hh
        rw [getD_map_succ _ hh']
        simpa [filter_row] using ih rest hlen' hh'

/-! ### Per-column argmax over `-inf`-marked compliance fractions -/

/-- The maximum of a list of extended fractions, `⊥` standing for `-np.inf`. -/
def listMax (l : List (WithBot ℚ)) : WithBot ℚ := l.foldl max ⊥

lemma foldl_max_of_init (l : List (WithBot ℚ)) :
    ∀ a b : WithBot ℚ, l.foldl max (max a b) = max a (l.foldl max b) := by
  induction l with
  | nil => intro a b; rfl
  | cons x xs ih =>
    intro a b
    simp only [List.foldl_cons]
    rw [max_assoc, ih]

lemma listMax_cons (x : WithBot ℚ) (l : List (WithBot ℚ)) :
    listMax (x :: l) = max x (listMax l) := by
  show (x :: l).foldl max ⊥ = max x (l.foldl max ⊥)
  simp only [List.foldl_cons]
  have : max (⊥ : WithBot ℚ) x = max x ⊥ := max_comm _ _
  rw [this, foldl_max_of_init]

lemma listMax_eq_bot {l : List (WithBot ℚ)} (hl : ∀ y ∈ l, y = ⊥) :
    listMax l = ⊥ := by
  induction l with
  | nil => rfl
  | cons x xs ih =>
    rw [listMax_cons, hl x (by simp), ih (fun y hy => hl y (by simp [hy]))]
    simp

lemma getD_le_listMax (l : List (WithBot ℚ)) (i : ℕ) :
    l.getD i ⊥ ≤ listMax l := by
  induction l generalizing i with
  | nil => simp [listMax]
  | cons x xs ih =>
    rw [listMax_cons]
    cases i with
    | zero => simp
    | succ i' =>
      rw [List.getD_cons_succ]
      exact le_trans (ih i') (le_max_right _ _)

/-- `np.argmax` down a column: the index of the first occurrence of the
maximum; `0` when the column is empty or every entry is `-inf`. -/
def argmaxIdx : List (WithBot ℚ) → ℕ
  | [] => 0
  | x :: xs => if listMax xs ≤ x then 0 else argmaxIdx xs + 1

lemma argmaxIdx_lt_length {l : List (WithBot ℚ)} (hl : l ≠ []) :
    argmaxIdx l < l.length := by
  induction l with
  | nil => exact absurd rfl hl
  | cons x xs ih =>
    by_cases h : listMax xs ≤ x
    · simp [argmaxIdx, h]
    · have hxs : xs ≠ [] := by
        rintro rfl
        exact h bot_le
      simp only [argmaxIdx, h, if_false, List.length_cons]
      exact Nat.succ_lt_succ (ih hxs)

lemma argmaxIdx_getD (l : List (WithBot ℚ)) :
    l.getD (argmaxIdx l) ⊥ = listMax l := by
  induction l with
  | nil => rfl
  | cons x xs ih =>
    by_cases h : listMax xs ≤ x
    · simp [argmaxIdx, h, listMax_cons, max_eq_left h]
    · have hle : x ≤ listMax xs := le_of_not_le h
      rw [listMax_cons, max_eq_right hle]
      simp only [argmaxIdx, h, if_false, List.getD_cons_succ]
      exact ih

lemma argmaxIdx_first (l : List (WithBot ℚ)) :
    ∀ i < argmaxIdx l, l.getD i ⊥ < listMax l := by
  induction l with
  | nil => simp [argmaxIdx]
  | cons x xs ih =>
    intro i hi
    by_cases h : listMax xs ≤ x
    · simp [argmaxIdx, h] at hi
    · have hlt : x < listMax xs := lt_of_not_le h
      have hmax : listMax (x :: xs) = listMax xs := by
        rw [listMax_cons, max_eq_right (le_of_lt hlt)]
      simp only [argmaxIdx, h, if_false] at hi
      cases i with
      | zero => simpa [hmax] using hlt
      | succ i' =>
        rw [List.getD_cons_succ, hmax]
        exact ih i' (Nat.lt_of_succ_lt_succ hi)

lemma argmaxIdx_eq_zero_of_all_bot {l : List (WithBot ℚ)}
    (hl : ∀ y ∈ l, y = ⊥) : argmaxIdx l = 0 := by
  cases l with
  | nil => rfl
  | cons x xs =>
    have : listMax xs = ⊥ := listMax_eq_bot (fun y hy => hl y (by simp [hy]))
    simp [argmaxIdx, this]

/-! ### The shading-state scheduler
(`leed_states_schedule`, `leed.py` lines 304-453; transmittance mode,
exhaustive-enumeration branch for grids with at most 6 light paths).

The annual-results store is an external collaborator (spec §6): the grid's
sensor count, flattened light-path list, per-light-path direct-illuminance
matrices, sun-up hour-of-year indices and occupancy mask are inputs. -/

structure SchedInput where
  grid_count : ℕ
  light_paths : List String
  direct : String → Mat
  sun_up_hours : List ℕ
  occ_mask : List Bool

/-- Well-formedness of the externally supplied results data: the occupancy
mask covers exactly the sun-up hours, light paths are distinct, and the
hour-of-year indices are distinct (they are an ordered list, spec §6). -/
structure SchedWF (inp : SchedInput) : Prop where
  mask_len : inp.occ_mask.length = inp.sun_up_hours.length
  lp_nodup : inp.light_paths.Nodup
  suh_nodup : inp.sun_up_hours.Nodup

/-- Line 358: the per-light-path candidate multiplier dictionary for the
grid. -/
def shadeTransmittancesOf (inp : SchedInput) (st : ShadeTransInput) :
    StrDict (List ℚ) :=
  (shade_transmittance_per_light_path inp.light_paths st []).1

/-- Line 379: `keys, values = zip(*shade_transmittances.items())`. -/
def combinationKeys (inp : SchedInput) (st : ShadeTransInput) : List String :=
  (shadeTransmittancesOf inp st).map Prod.fst

def combinationValues (inp : SchedInput) (st : ShadeTransInput) : List (List ℚ) :=
  (shadeTransmittancesOf inp st).map Prod.snd

/-- Line 380: `[dict(zip(keys, v)) for v in itertools.product(*values)]`. -/
def combinationsOf (inp : SchedInput) (st : ShadeTransInput) : List (StrDict ℚ) :=
  (listProduct (combinationValues inp st)).map
    (fun v => (combinationKeys inp st).zip v)

/-- Lines 383-398: sum, over the light paths of one candidate combination, of
the direct-illuminance matrix scaled by the candidate multiplier (the
scaling is skipped when the multiplier is `1`). -/
def combination_array (inp : SchedInput) (combination : StrDict ℚ) : Mat :=
  matSum (combination.map (fun p =>
    if p.2 = 1 then inp.direct p.1 else matScale p.2 (inp.direct p.1)))

/-- Line 401, per column: `(combination_array >= 1000).sum(axis=0)` — the
number of sensors whose summed direct illuminance reaches 1000 lux in sun-up
hour `j`. -/
def overlit_count (m : Mat) (j : ℕ) : ℕ :=
  (m.filter (fun row => decide ((1000 : ℚ) ≤ row.getD j 0))).length

/-- Line 401: the fraction of the grid's sensors overlit at sun-up hour `j`
under a candidate combination. -/
def overlit_fraction (inp : SchedInput) (combination : StrDict ℚ) (j : ℕ) : ℚ :=
  (overlit_count (combination_array inp combination) j : ℚ) / inp.grid_count

/-- Lines 382-403: `array_list_combinations`, one row per combination, one
column per sun-up hour. -/
def array_list_combinationsOf (inp : SchedInput) (st : ShadeTransInput) :
    List (List ℚ) :=
  (combinationsOf inp st).map (fun c =>
    (List.range inp.sun_up_hours.length).map (fun j => overlit_fraction inp c j))

/-- Line 404: `array_combinations[array_combinations > 0.02] = -np.inf`. -/
def markInvalid (x : ℚ) : WithBot ℚ := if 2/100 < x then ⊥ else ↑x

def array_combinationsOf (inp : SchedInput) (st : ShadeTransInput) :
    List (List (WithBot ℚ)) :=
  (array_list_combinationsOf inp st).map (fun row => row.map markInvalid)

/-- Line 406: sun-up-hour column indices where every combination is marked
invalid. -/
def grid_comply_indicesOf (inp : SchedInput) (st : ShadeTransInput) : List ℕ :=
  (List.range inp.sun_up_hours.length).filter
    (fun j => (array_combinationsOf inp st).all (fun row => decide (row.getD j ⊥ = ⊥)))

/-- Lines 407-410: those column indices mapped to hours of year — the grid's
entry in the compliance-failure record (`fail_to_comply`); the code stores it
only when the list is non-empty, so the empty list stands for "no entry". -/
def failHoysOf (inp : SchedInput) (st : ShadeTransInput) : List ℕ :=
  (grid_comply_indicesOf inp st).map (fun j => inp.sun_up_hours.getD j 0)

/-- Line 412: restrict the marked array to the occupied columns. -/
def array_combinations_filterOf (inp : SchedInput) (st : ShadeTransInput) :
    List (List (WithBot ℚ)) :=
  filter_array2d (array_combinationsOf inp st) inp.occ_mask

/-- The column count of the filtered array. -/
def nOccOf (inp : SchedInput) (st : ShadeTransInput) : ℕ :=
  ((array_combinations_filterOf inp st).headD []).length

/-- Line 414: `argmax(axis=0)` — per occupied column, the first combination
index attaining the maximum marked fraction. -/
def max_indicesOf (inp : SchedInput) (st : ShadeTransInput) : List ℕ :=
  (List.range (nOccOf inp st)).map
    (fun h => argmaxIdx ((array_combinations_filterOf inp st).map
      (fun row => row.getD h ⊥)))

/-- Line 415: `combinations = [combinations[idx] for idx in max_indices]`. -/
def selected_combinationsOf (inp : SchedInput) (st : ShadeTransInput) :
    List (StrDict ℚ) :=
  (max_indicesOf inp st).map (fun idx => (combinationsOf inp st).getD idx [])

/-- Lines 417-420: append, per occupied hour, the selected value of every
non-static light path to the grid's schedule (`defaultdict(list)`). -/
def grid_states_scheduleOf (inp : SchedInput) (st : ShadeTransInput) :
    StrDict (List ℚ) :=
  (selected_combinationsOf inp st).foldl
    (fun sched combination =>
      combination.foldl
        (fun sched p =>
          if p.1 ≠ "__static_apertures__" then dictAppend sched p.1 p.2 else sched)
        sched)
    []

/-- The per-grid outcome of `leed_states_schedule`: the grid's
per-aperture-group schedule over occupied hours and the grid's
compliance-failure hours of year. -/
def leed_states_schedule_grid (inp : SchedInput) (st : ShadeTransInput) :
    StrDict (List ℚ) × List ℕ :=
  (grid_states_scheduleOf inp st, failHoysOf inp st)

/-! ### Structural facts about the enumeration -/

lemma dictInsert_of_fresh {α : Type} (d : StrDict α) (k : String) (v : α)
    (hk : k ∉ d.map Prod.fst) : dictInsert d k v = d ++ [(k, v)] := by
  induction d with
  | nil => rfl
  | cons p rest ih =>
    simp only [List.map_cons, List.mem_cons] at hk
    push_neg at hk
    have h1 : ¬ p.1 = k := fun hh => hk.1 hh.symm
    simp [dictInsert, h1, ih hk.2]

/-- A key-driven `dictInsert` fold over fresh, distinct keys appends the keyed
entries in order. -/
lemma foldl_dictInsert_fresh {α : Type} (f : String → α) (lps : List String)
    (d0 : StrDict α) (hnd : lps.Nodup)
    (hfresh : ∀ lp ∈ lps, lp ∉ d0.map Prod.fst) :
    lps.foldl (fun d lp => dictInsert d lp (f lp)) d0 =
      d0 ++ lps.map (fun lp => (lp, f lp)) := by
  induction lps generalizing d0 with
  | nil => simp
  | cons x rest ih =>
    simp only [List.foldl_cons]
    rw [dictInsert_of_fresh d0 x (f x) (hfresh x (by simp))]
    have hfresh' : ∀ lp ∈ rest, lp ∉ (d0 ++ [(x, f x)]).map Prod.fst := by
      intro lp hlp hmem
      simp only [List.map_append, List.mem_append, List.map_cons, List.map_nil,
        List.mem_singleton] at hmem
      rcases hmem with hmem | hmem
      · exact hfresh lp (by simp [hlp]) hmem
      · exact (List.nodup_cons.mp hnd).1 (hmem ▸ hlp)
    rw [ih (d0 ++ [(x, f x)]) (List.nodup_cons.mp hnd).2 hfresh']
    simp

/-- Closed form of the grid's candidate dictionary when the light paths are
distinct: one entry per light path, in order, carrying `[1, multiplier]`. -/
lemma shadeTransmittancesOf_eq (inp : SchedInput) (st : ShadeTransInput)
    (hnd : inp.light_paths.Nodup) :
    shadeTransmittancesOf inp st =
      inp.light_paths.map (fun lp => (lp, resolvedEntry st lp)) := by
  unfold shadeTransmittancesOf
  rw [shade_transmittance_per_light_path_eq]
  simpa using foldl_dictInsert_fresh (resolvedEntry st) inp.light_paths [] hnd (by simp)

lemma combinationKeys_eq (inp : SchedInput) (st : ShadeTransInput)
    (hnd : inp.light_paths.Nodup) :
    combinationKeys inp st = inp.light_paths := by
  unfold combinationKeys
  rw [shadeTransmittancesOf_eq inp st hnd, List.map_map]
  exact List.map_id _

lemma combinationValues_eq (inp : SchedInput) (st : ShadeTransInput)
    (hnd : inp.light_paths.Nodup) :
    combinationValues inp st = inp.light_paths.map (resolvedEntry st) := by
  unfold combinationValues
  rw [shadeTransmittancesOf_eq inp st hnd]
  simp

lemma listProduct_ne_nil {α : Type} {ls : List (List α)}
    (h : ∀ l ∈ ls, l ≠ []) : listProduct ls ≠ [] := by
  induction ls with
  | nil => simp [listProduct]
  | cons xs rest ih =>
    have hxs : xs ≠ [] := h xs (by simp)
    have hrest : listProduct rest ≠ [] := ih (fun l hl => h l (by simp [hl]))
    obtain ⟨x, xs', rfl⟩ := List.exists_cons_of_ne_nil hxs
    obtain ⟨v, vs, hv⟩ := List.exists_cons_of_ne_nil hrest
    simp [listProduct, hv]

lemma mem_listProduct_length {α : Type} {ls : List (List α)} {v : List α}
    (hv : v ∈ listProduct ls) : v.length = ls.length := by
  induction ls generalizing v with
  | nil => simp [listProduct] at hv; simp [hv]
  | cons xs rest ih =>
    simp only [listProduct, List.mem_flatMap, List.mem_map] at hv
    obtain ⟨x, _, w, hw, rfl⟩ := hv
    simp [ih hw]

/-- The first element of the cartesian product takes the head of every
candidate list. -/
lemma listProduct_headD {α : Type} (d : α) {ls : List (List α)}
    (h : ∀ l ∈ ls, l ≠ []) :
    (listProduct ls).headD [] = ls.map (fun l => l.headD d) := by
  induction ls with
  | nil => simp [listProduct]
  | cons xs rest ih =>
    have hxs : xs ≠ [] := h xs (by simp)
    have hrest : listProduct rest ≠ [] := listProduct_ne_nil (fun l hl => h l (by simp [hl]))
    obtain ⟨x, xs', rfl⟩ := List.exists_cons_of_ne_nil hxs
    obtain ⟨v, vs, hv⟩ := List.exists_cons_of_ne_nil hrest
    have ihr := ih (fun l hl => h l (by simp [hl]))
    rw [hv] at ihr
    simp only [listProduct, hv, List.flatMap_cons, List.map_cons, List.headD_cons]
    simp only [List.cons_append, List.headD_cons]
    simpa using ihr

lemma getD_map_of_lt {α β : Type} (f : α → β) (l : List α) {i : ℕ}
    (hi : i < l.length) (d : β) (d' : α) :
    (l.map f).getD i d = f (l.getD i d') := by
  induction l generalizing i with
  | nil => simp at hi
  | cons x xs ih =>
    cases i with
    | zero => simp
    | succ i' => simpa using ih (Nat.lt_of_succ_lt_succ hi)

lemma getD_range_of_lt {n i : ℕ} (hi : i < n) (d : ℕ) :
    (List.range n).getD i d = i := by
  rw [List.getD_eq_getElem _ _ (by simpa using hi)]
  simp

/-- Every row of the marked array has one column per sun-up hour. -/
lemma array_combinations_row_length (inp : SchedInput) (st : ShadeTransInput) :
    ∀ row ∈ array_combinationsOf inp st, row.length = inp.sun_up_hours.length := by
  intro row hrow
  simp only [array_combinationsOf, array_list_combinationsOf, List.map_map,
    List.mem_map] at hrow
  obtain ⟨c, _, rfl⟩ := hrow
  simp

lemma array_combinations_length (inp : SchedInput) (st : ShadeTransInput) :
    (array_combinationsOf inp st).length = (combinationsOf inp st).length := by
  simp [array_combinationsOf, array_list_combinationsOf]

/-- The marked entry of combination `r` at sun-up hour `j`. -/
lemma array_combinations_getD (inp : SchedInput) (st : ShadeTransInput)
    {r j : ℕ} (hr : r < (combinationsOf inp st).length)
    (hj : j < inp.sun_up_hours.length) :
    ((array_combinationsOf inp st).getD r []).getD j ⊥ =
      markInvalid (overlit_fraction inp ((combinationsOf inp st).getD r []) j) := by
  unfold array_combinationsOf array_list_combinationsOf
  rw [List.map_map]
  rw [getD_map_of_lt _ _ (by simpa using hr) _ []]
  simp only [Function.comp]
  rw [getD_map_of_lt _ _ (by simpa using hj) _ 0]
  rw [getD_map_of_lt _ _ (by simpa using hj) _ 0]
  rw [getD_range_of_lt hj]

lemma combinationsOf_ne_nil (inp : SchedInput) (st : ShadeTransInput)
    (hnd : inp.light_paths.Nodup) : combinationsOf inp st ≠ [] := by
  unfold combinationsOf
  have hvals : ∀ l ∈ combinationValues inp st, l ≠ [] := by
    rw [combinationValues_eq inp st hnd]
    intro l hl
    simp only [List.mem_map] at hl
    obtain ⟨lp, _, rfl⟩ := hl
    simp [resolvedEntry]
  have := listProduct_ne_nil hvals
  simpa using this

lemma markInvalid_eq_bot_iff (x : ℚ) : markInvalid x = ⊥ ↔ 2/100 < x := by
  unfold markInvalid
  by_cases h : 2/100 < x <;> simp [h]

/-- The occupied column `h` of the filtered array is the column of the full
marked array at the `h`-th occupied sun-up-hour index. -/
lemma filtered_column_eq (inp : SchedInput) (st : ShadeTransInput)
    (hWF : SchedWF inp) {h : ℕ} (hh : h < (occIndices inp.occ_mask).length) :
    (array_combinations_filterOf inp st).map (fun row => row.getD h ⊥) =
      (array_combinationsOf inp st).map
        (fun row => row.getD ((occIndices inp.occ_mask).getD h 0) ⊥) := by
  unfold array_combinations_filterOf filter_array2d
  rw [List.map_map]
  apply List.map_congr_left
  intro row hrow
  have hlen : inp.occ_mask.length = row.length := by
    rw [hWF.mask_len, array_combinations_row_length inp st row hrow]
  exact filter_row_getD inp.occ_mask row ⊥ hlen hh

lemma array_combinationsOf_ne_nil (inp : SchedInput) (st : ShadeTransInput)
    (hnd : inp.light_paths.Nodup) : array_combinationsOf inp st ≠ [] := by
  intro hc
  apply combinationsOf_ne_nil inp st hnd
  have hl := array_combinations_length inp st
  rw [hc] at hl
  exact List.length_eq_zero.mp hl.symm

lemma nOccOf_eq (inp : SchedInput) (st : ShadeTransInput) (hWF : SchedWF inp) :
    nOccOf inp st = (occIndices inp.occ_mask).length := by
  have hne := array_combinationsOf_ne_nil inp st hWF.lp_nodup
  obtain ⟨r0, rest, hr⟩ := List.exists_cons_of_ne_nil hne
  unfold nOccOf array_combinations_filterOf filter_array2d
  rw [hr]
  simp only [List.map_cons, List.headD_cons]
  have hlen : inp.occ_mask.length = r0.length := by
    rw [hWF.mask_len, array_combinations_row_length inp st r0 (by rw [hr]; simp)]
  exact filter_row_length inp.occ_mask r0 hlen

lemma max_indicesOf_length (inp : SchedInput) (st : ShadeTransInput) :
    (max_indicesOf inp st).length = nOccOf inp st := by
  simp [max_indicesOf]

lemma selected_combinationsOf_length (inp : SchedInput) (st : ShadeTransInput) :
    (selected_combinationsOf inp st).length = nOccOf inp st := by
  simp [selected_combinationsOf, max_indicesOf_length]

/-- The selected index for occupied column `h` is the first-max index of the
marked column at the corresponding sun-up hour. -/
lemma max_indicesOf_getD (inp : SchedInput) (st : ShadeTransInput)
    (hWF : SchedWF inp) {h : ℕ} (hh : h < (occIndices inp.occ_mask).length) :
    (max_indicesOf inp st).getD h 0 =
      argmaxIdx ((array_combinationsOf inp st).map
        (fun row => row.getD ((occIndices inp.occ_mask).getD h 0) ⊥)) := by
  have hn : h < nOccOf inp st := by rw [nOccOf_eq inp st hWF]; exact hh
  unfold max_indicesOf
  rw [getD_map_of_lt _ _ (by simpa using hn) _ 0, getD_range_of_lt hn]
  rw [filtered_column_eq inp st hWF hh]

lemma selected_combinationsOf_getD (inp : SchedInput) (st : ShadeTransInput)
    {h : ℕ} (hh : h < nOccOf inp st) :
    (selected_combinationsOf inp st).getD h [] =
      (combinationsOf inp st).getD ((max_indicesOf inp st).getD h 0) [] := by
  unfold selected_combinationsOf
  rw [getD_map_of_lt _ _ (by rw [max_indicesOf_length]; exact hh) _ 0]

/-- **C1** (`leed.py` lines 398-420): for every grid and every occupied hour
whose hour of year is not recorded in the compliance-failure record, the
combination selected by `leed_states_schedule` keeps the fraction of sensors
whose summed direct illuminance reaches the 1000 lux direct threshold at or
below 2 %; and for every occupied hour whose hour of year is recorded in the
record, every enumerated candidate combination exceeds the 2 % limit. -/
theorem leed_states_schedule_two_percent_rule
    (inp : SchedInput) (st : ShadeTransInput) (hWF : SchedWF inp) (h j : ℕ)
    (hh : h < (occIndices inp.occ_mask).length)
    (hj : j = (occIndices inp.occ_mask).getD h 0) :
    (inp.sun_up_hours.getD j 0 ∉ failHoysOf inp st →
      overlit_fraction inp ((selected_combinationsOf inp st).getD h []) j ≤ 2/100) ∧
    (inp.sun_up_hours.getD j 0 ∈ failHoysOf inp st →
      ∀ c ∈ combinationsOf inp st, 2/100 < overlit_fraction inp c j) := by
  subst hj
  set j := (occIndices inp.occ_mask).getD h 0 with hjdef
  have hjmem : j ∈ occIndices inp.occ_mask := by
    rw [hjdef, List.getD_eq_getElem _ _ hh]
    exact List.getElem_mem hh
  have hjm : j < inp.occ_mask.length := occIndices_lt j hjmem
  have hjn : j < inp.sun_up_hours.length := hWF.mask_len ▸ hjm
  have harrlen := array_combinations_length inp st
  have harr_ne := array_combinationsOf_ne_nil inp st hWF.lp_nodup
  set col := (array_combinationsOf inp st).map (fun row => row.getD j ⊥) with hcol
  have hcol_len : col.length = (combinationsOf inp st).length := by
    rw [hcol, List.length_map, harrlen]
  have hcol_getD : ∀ r, r < (combinationsOf inp st).length →
      col.getD r ⊥ = markInvalid (overlit_fraction inp ((combinationsOf inp st).getD r []) j) := by
    intro r hr
    rw [hcol, getD_map_of_lt _ _ (by rw [harrlen]; exact hr) _ []]
    exact array_combinations_getD inp st hr hjn
  constructor
  · -- the selected combination complies at an hour absent from the record
    intro hnf
    have hnotin : j ∉ grid_comply_indicesOf inp st := by
      intro hmem
      exact hnf (List.mem_map_of_mem _ hmem)
    have hpred : ¬ (∀ row ∈ array_combinationsOf inp st, row.getD j ⊥ = ⊥) := by
      intro hall
      apply hnotin
      unfold grid_comply_indicesOf
      rw [List.mem_filter]
      exact ⟨List.mem_range.mpr hjn, by simpa using hall⟩
    push_neg at hpred
    obtain ⟨row, hrowmem, hrowne⟩ := hpred
    obtain ⟨r, hr, hreq⟩ := List.getElem_of_mem hrowmem
    have hcolr : col.getD r ⊥ ≠ ⊥ := by
      rw [hcol, getD_map_of_lt _ _ hr ⊥ [], List.getD_eq_getElem _ _ hr, hreq]
      exact hrowne
    have hmaxne : listMax col ≠ ⊥ := by
      intro hbot
      exact hcolr (le_bot_iff.mp (hbot ▸ getD_le_listMax col r))
    have hcolne : col ≠ [] := by
      rw [hcol]
      simpa [List.map_eq_nil_iff] using harr_ne
    have hidxc : argmaxIdx col < (combinationsOf inp st).length := by
      rw [← hcol_len]
      exact argmaxIdx_lt_length hcolne
    have hmarked :
        markInvalid (overlit_fraction inp
          ((combinationsOf inp st).getD (argmaxIdx col) []) j) ≠ ⊥ := by
      rw [← hcol_getD _ hidxc, argmaxIdx_getD col]
      exact hmaxne
    have hsel : (selected_combinationsOf inp st).getD h [] =
        (combinationsOf inp st).getD (argmaxIdx col) [] := by
      rw [selected_combinationsOf_getD inp st (by rw [nOccOf_eq inp st hWF]; exact hh),
        max_indicesOf_getD inp st hWF hh]
    rw [hsel]
    by_contra hlt
    push_neg at hlt
    exact hmarked ((markInvalid_eq_bot_iff _).mpr hlt)
  · -- at a recorded hour every enumerated combination exceeds the limit
    intro hmem c hc
    obtain ⟨j', hj'gci, hj'eq⟩ := List.mem_map.mp hmem
    have hj'lt : j' < inp.sun_up_hours.length :=
      List.mem_range.mp (List.mem_filter.mp hj'gci).1
    have hjj' : j = j' := by
      rw [List.getD_eq_getElem _ _ hj'lt, List.getD_eq_getElem _ _ hjn] at hj'eq
      exact ((List.Nodup.getElem_inj_iff hWF.suh_nodup).mp hj'eq.symm)
    have hjgci : j ∈ grid_comply_indicesOf inp st := hjj' ▸ hj'gci
    have hall : ∀ row ∈ array_combinationsOf inp st, row.getD j ⊥ = ⊥ := by
      have := (List.mem_filter.mp hjgci).2
      simpa using this
    obtain ⟨r, hr, hceq⟩ := List.getElem_of_mem hc
    have harr_r : r < (array_combinationsOf inp st).length := by
      rw [harrlen]; exact hr
    have hrow : ((array_combinationsOf inp st).getD r []).getD j ⊥ = ⊥ := by
      rw [List.getD_eq_getElem _ _ harr_r]
      exact hall _ (List.getElem_mem harr_r)
    rw [array_combinations_getD inp st hr hjn] at hrow
    rw [List.getD_eq_getElem _ _ hr, hceq] at hrow
    exact (markInvalid_eq_bot_iff _).mp hrow

lemma markInvalid_eq_coe {x : ℚ} (hx : markInvalid x ≠ ⊥) :
    markInvalid x = (x : WithBot ℚ) := by
  unfold markInvalid at *
  by_cases h : 2/100 < x
  · simp [h] at hx
  · simp [h]

/-- The `r`-th entry of the marked column at sun-up hour `j` is the marked
fraction of the `r`-th combination. -/
lemma column_getD_eq (inp : SchedInput) (st : ShadeTransInput) {j : ℕ}
    (hjn : j < inp.sun_up_hours.length) {r : ℕ}
    (hr : r < (combinationsOf inp st).length) :
    ((array_combinationsOf inp st).map (fun row => row.getD j ⊥)).getD r ⊥ =
      markInvalid (overlit_fraction inp ((combinationsOf inp st).getD r []) j) := by
  rw [getD_map_of_lt _ _ (by rw [array_combinations_length]; exact hr) _ []]
  exact array_combinations_getD inp st hr hjn

/-- **C4** (`leed.py` lines 412-420): for a grid with at most 6 light paths
and any occupied hour at which some enumerated combination is valid (not
marked `-inf`), the scheduler picks a valid combination whose overlit
fraction is maximal among the valid ones, and every combination earlier in
enumeration order is strictly below the selected marked value — ties are
broken in favour of the first combination in enumeration order. -/
theorem leed_states_schedule_selects_first_max
    (inp : SchedInput) (st : ShadeTransInput) (hWF : SchedWF inp)
    (_hsix : inp.light_paths.length ≤ 6) (h j idx : ℕ)
    (hh : h < (occIndices inp.occ_mask).length)
    (hj : j = (occIndices inp.occ_mask).getD h 0)
    (hidx : idx = (max_indicesOf inp st).getD h 0)
    (hvalid : ∃ c ∈ combinationsOf inp st,
      markInvalid (overlit_fraction inp c j) ≠ ⊥) :
    idx < (combinationsOf inp st).length ∧
    markInvalid (overlit_fraction inp ((combinationsOf inp st).getD idx []) j) ≠ ⊥ ∧
    (∀ r, r < (combinationsOf inp st).length →
      markInvalid (overlit_fraction inp ((combinationsOf inp st).getD r []) j) ≠ ⊥ →
      overlit_fraction inp ((combinationsOf inp st).getD r []) j ≤
        overlit_fraction inp ((combinationsOf inp st).getD idx []) j) ∧
    (∀ r, r < idx →
      markInvalid (overlit_fraction inp ((combinationsOf inp st).getD r []) j) <
        markInvalid (overlit_fraction inp ((combinationsOf inp st).getD idx []) j)) ∧
    (selected_combinationsOf inp st).getD h [] =
      (combinationsOf inp st).getD idx [] := by
  subst hj
  set j := (occIndices inp.occ_mask).getD h 0 with hjdef
  have hjmem : j ∈ occIndices inp.occ_mask := by
    rw [hjdef, List.getD_eq_getElem _ _ hh]
    exact List.getElem_mem hh
  have hjn : j < inp.sun_up_hours.length :=
    hWF.mask_len ▸ occIndices_lt j hjmem
  have harrlen := array_combinations_length inp st
  have harr_ne := array_combinationsOf_ne_nil inp st hWF.lp_nodup
  set col := (array_combinationsOf inp st).map (fun row => row.getD j ⊥) with hcol
  have hcol_len : col.length = (combinationsOf inp st).length := by
    rw [hcol, List.length_map, harrlen]
  have hcolne : col ≠ [] := by
    rw [hcol]
    simpa [List.map_eq_nil_iff] using harr_ne
  have hidx_eq : idx = argmaxIdx col := by
    rw [hidx, max_indicesOf_getD inp st hWF hh]
  obtain ⟨c, hc, hcne⟩ := hvalid
  obtain ⟨r0, hr0, hr0eq⟩ := List.getElem_of_mem hc
  have hcol_r0 : col.getD r0 ⊥ ≠ ⊥ := by
    rw [hcol, column_getD_eq inp st hjn hr0, List.getD_eq_getElem _ _ hr0, hr0eq]
    exact hcne
  have hmaxne : listMax col ≠ ⊥ := by
    intro hbot
    exact hcol_r0 (le_bot_iff.mp (hbot ▸ getD_le_listMax col r0))
  have hidxlt : idx < (combinationsOf inp st).length := by
    rw [hidx_eq, ← hcol_len]
    exact argmaxIdx_lt_length hcolne
  have hattain : col.getD idx ⊥ = listMax col := by
    rw [hidx_eq]; exact argmaxIdx_getD col
  have hmarked_idx :
      markInvalid (overlit_fraction inp ((combinationsOf inp st).getD idx []) j) ≠ ⊥ := by
    rw [← column_getD_eq inp st hjn hidxlt, ← hcol, hattain]
    exact hmaxne
  refine ⟨hidxlt, hmarked_idx, ?_, ?_, ?_⟩
  · intro r hr hrvalid
    have h1 : col.getD r ⊥ ≤ listMax col := getD_le_listMax col r
    rw [hcol, column_getD_eq inp st hjn hr] at h1
    rw [← hattain, hcol, column_getD_eq inp st hjn hidxlt] at h1
    rw [markInvalid_eq_coe hrvalid, markInvalid_eq_coe hmarked_idx] at h1
    exact_mod_cast h1
  · intro r hrlt
    have hr : r < (combinationsOf inp st).length := lt_trans hrlt hidxlt
    have h1 : col.getD r ⊥ < listMax col := by
      rw [hidx_eq] at hrlt
      exact argmaxIdx_first col r hrlt
    rw [← hattain] at h1
    rw [hcol, column_getD_eq inp st hjn hr, column_getD_eq inp st hjn hidxlt] at h1
    exact h1
  · rw [selected_combinationsOf_getD inp st (by rw [nOccOf_eq inp st hWF]; exact hh), ← hidx]

/-! ### The per-grid schedule dictionary -/

lemma dictLookup_dictAppend_self (d : StrDict (List ℚ)) (k : String) (v : ℚ) :
    dictLookup (dictAppend d k v) k = some ((dictLookup d k).getD [] ++ [v]) := by
  induction d with
  | nil => simp [dictAppend, dictLookup]
  | cons p rest ih =>
    by_cases h : p.1 = k
    · simp [dictAppend, dictLookup, h]
    · simp [dictAppend, dictLookup, h, ih]

lemma dictLookup_dictAppend_other (d : StrDict (List ℚ)) (k k' : String)
    (v : ℚ) (hk : k' ≠ k) :
    dictLookup (dictAppend d k v) k' = dictLookup d k' := by
  have hne : ¬ (k = k') := fun hh => hk hh.symm
  induction d with
  | nil => simp [dictAppend, dictLookup, hne]
  | cons p rest ih =>
    by_cases h : p.1 = k
    · have hne' : ¬ (p.1 = k') := h ▸ hne
      simp [dictAppend, dictLookup, h, hne, hne']
    · by_cases h' : p.1 = k'
      · simp [dictAppend, dictLookup, h, h', hk]
      · simp [dictAppend, dictLookup, h, h', ih]

lemma dictLookup_some_mem {α : Type} {d : StrDict α} {k : String} {v : α}
    (h : dictLookup d k = some v) : (k, v) ∈ d := by
  induction d with
  | nil => simp [dictLookup] at h
  | cons p rest ih =>
    by_cases hp : p.1 = k
    · have h2 : p.2 = v := by simpa [dictLookup, hp] using h
      have hpv : p = (k, v) := Prod.ext hp h2
      rw [← hpv]
      exact List.mem_cons_self p rest
    · simp only [dictLookup, hp, if_false] at h
      exact List.mem_cons_of_mem p (ih h)

lemma dictLookup_isSome_of_mem_keys {α : Type} {d : StrDict α} {k : String}
    (h : k ∈ d.map Prod.fst) : (dictLookup d k).isSome := by
  induction d with
  | nil => simp at h
  | cons p rest ih =>
    by_cases hp : p.1 = k
    · simp [dictLookup, hp]
    · simp only [List.map_cons, List.mem_cons] at h
      rcases h with h | h
      · exact absurd h.symm hp
      · simp [dictLookup, hp, ih h]

/-- The inner fold of `grid_states_scheduleOf`: append one combination's
values (skipping the static identifier) to the schedule dictionary. -/
def scheduleInnerFold (combination : StrDict ℚ) (sched : StrDict (List ℚ)) :
    StrDict (List ℚ) :=
  combination.foldl
    (fun sched p =>
      if p.1 ≠ "__static_apertures__" then dictAppend sched p.1 p.2 else sched)
    sched

lemma grid_states_scheduleOf_eq_foldl (inp : SchedInput) (st : ShadeTransInput) :
    grid_states_scheduleOf inp st =
      (selected_combinationsOf inp st).foldl
        (fun sched c => scheduleInnerFold c sched) [] := rfl

lemma dictLookup_scheduleInnerFold_not_mem (c : StrDict ℚ)
    (d : StrDict (List ℚ)) (lp : String) (hlp : lp ∉ c.map Prod.fst) :
    dictLookup (scheduleInnerFold c d) lp = dictLookup d lp := by
  induction c generalizing d with
  | nil => rfl
  | cons p rest ih =>
    simp only [List.map_cons, List.mem_cons] at hlp
    push_neg at hlp
    have hne : lp ≠ p.1 := hlp.1
    have hstep : dictLookup
        (if p.1 ≠ "__static_apertures__" then dictAppend d p.1 p.2 else d) lp =
        dictLookup d lp := by
      by_cases hs : p.1 ≠ "__static_apertures__"
      · rw [if_pos hs]
        exact dictLookup_dictAppend_other d p.1 lp p.2 hne
      · rw [if_neg hs]
    calc dictLookup (scheduleInnerFold (p :: rest) d) lp
        = dictLookup (scheduleInnerFold rest
            (if p.1 ≠ "__static_apertures__" then dictAppend d p.1 p.2 else d)) lp := rfl
      _ = dictLookup (if p.1 ≠ "__static_apertures__" then dictAppend d p.1 p.2 else d) lp :=
          ih _ hlp.2
      _ = dictLookup d lp := hstep

lemma dictLookup_scheduleInnerFold (c : StrDict ℚ) (d : StrDict (List ℚ))
    (lp : String) (v : ℚ) (hnd : (c.map Prod.fst).Nodup) (hmem : (lp, v) ∈ c)
    (hlp : lp ≠ "__static_apertures__") :
    dictLookup (scheduleInnerFold c d) lp =
      some ((dictLookup d lp).getD [] ++ [v]) := by
  induction c generalizing d with
  | nil => simp at hmem
  | cons p rest ih =>
    rcases List.mem_cons.mp hmem with hp | hp
    · -- the head entry carries (lp, v)
      have hp1 : p.1 = lp := by rw [← hp]
      have hp2 : p.2 = v := by rw [← hp]
      have hnot : lp ∉ rest.map Prod.fst := hp1 ▸ (List.nodup_cons.mp hnd).1
      have hstatic : p.1 ≠ "__static_apertures__" := hp1.symm ▸ hlp
      have hstep : (if p.1 ≠ "__static_apertures__" then dictAppend d p.1 p.2 else d) =
          dictAppend d lp v := by
        rw [if_pos hstatic, hp1, hp2]
      calc dictLookup (scheduleInnerFold (p :: rest) d) lp
          = dictLookup (scheduleInnerFold rest
              (if p.1 ≠ "__static_apertures__" then dictAppend d p.1 p.2 else d)) lp := rfl
        _ = dictLookup (if p.1 ≠ "__static_apertures__" then dictAppend d p.1 p.2 else d) lp :=
            dictLookup_scheduleInnerFold_not_mem rest _ lp hnot
        _ = dictLookup (dictAppend d lp v) lp := by rw [hstep]
        _ = some ((dictLookup d lp).getD [] ++ [v]) := dictLookup_dictAppend_self d lp v
    · -- (lp, v) sits in the tail, the head key differs from lp
      have hlpmem : lp ∈ rest.map Prod.fst := List.mem_map.mpr ⟨(lp, v), hp, rfl⟩
      have hne : lp ≠ p.1 := by
        intro hq
        exact (List.nodup_cons.mp hnd).1 (hq ▸ hlpmem)
      have hstep : dictLookup
          (if p.1 ≠ "__static_apertures__" then dictAppend d p.1 p.2 else d) lp =
          dictLookup d lp := by
        by_cases hs : p.1 ≠ "__static_apertures__"
        · rw [if_pos hs]
          exact dictLookup_dictAppend_other d p.1 lp p.2 hne
        · rw [if_neg hs]
      calc dictLookup (scheduleInnerFold (p :: rest) d) lp
          = dictLookup (scheduleInnerFold rest
              (if p.1 ≠ "__static_apertures__" then dictAppend d p.1 p.2 else d)) lp := rfl
        _ = some ((dictLookup
              (if p.1 ≠ "__static_apertures__" then dictAppend d p.1 p.2 else d) lp).getD []
              ++ [v]) := ih _ (List.nodup_cons.mp hnd).2 hp
        _ = some ((dictLookup d lp).getD [] ++ [v]) := by rw [hstep]

/-- Folding further combinations over a schedule already holding `l` at `lp`
appends, per combination, the value of `lp` in that combination. -/
lemma dictLookup_schedule_foldl (sel : List (StrDict ℚ)) (d : StrDict (List ℚ))
    (lp : String) (l : List ℚ) (hlp : lp ≠ "__static_apertures__")
    (hsel : ∀ c ∈ sel, (c.map Prod.fst).Nodup ∧ lp ∈ c.map Prod.fst)
    (hd : dictLookup d lp = some l) :
    dictLookup (sel.foldl (fun sched c => scheduleInnerFold c sched) d) lp =
      some (l ++ sel.map (fun c => (dictLookup c lp).getD 0)) := by
  induction sel generalizing d l with
  | nil => simpa using hd
  | cons c rest ih =>
    obtain ⟨hnd, hmem⟩ := hsel c (by simp)
    obtain ⟨v, hv⟩ := Option.isSome_iff_exists.mp (dictLookup_isSome_of_mem_keys hmem)
    have hmemc : (lp, v) ∈ c := dictLookup_some_mem hv
    have hstep : dictLookup (scheduleInnerFold c d) lp = some (l ++ [v]) := by
      rw [dictLookup_scheduleInnerFold c d lp v hnd hmemc hlp, hd]
      rfl
    simp only [List.foldl_cons]
    rw [ih _ _ (fun c' hc' => hsel c' (List.mem_cons_of_mem c hc')) hstep]
    simp [hv]

/-- Every selected combination is one of the enumerated combinations. -/
lemma selected_mem_combinations (inp : SchedInput) (st : ShadeTransInput)
    (hnd : inp.light_paths.Nodup) :
    ∀ c ∈ selected_combinationsOf inp st, c ∈ combinationsOf inp st := by
  intro c hc
  unfold selected_combinationsOf at hc
  obtain ⟨idx, hidxmem, rfl⟩ := List.mem_map.mp hc
  unfold max_indicesOf at hidxmem
  obtain ⟨h, _, rfl⟩ := List.mem_map.mp hidxmem
  have harr_ne := array_combinationsOf_ne_nil inp st hnd
  set col := (array_combinations_filterOf inp st).map (fun row => row.getD h ⊥) with hcol
  have hcolne : col ≠ [] := by
    rw [hcol]
    unfold array_combinations_filterOf filter_array2d
    simpa [List.map_eq_nil_iff] using harr_ne
  have hlt : argmaxIdx col < (combinationsOf inp st).length := by
    have h1 := argmaxIdx_lt_length hcolne
    have h2 : col.length = (combinationsOf inp st).length := by
      rw [hcol]
      unfold array_combinations_filterOf filter_array2d
      simp [← array_combinations_length inp st]
    rw [h2] at h1
    exact h1
  rw [List.getD_eq_getElem _ _ hlt]
  exact List.getElem_mem hlt

/-- Every enumerated combination lists exactly the grid's light paths as its
keys, in order. -/
lemma combinations_keys (inp : SchedInput) (st : ShadeTransInput)
    (hnd : inp.light_paths.Nodup) :
    ∀ c ∈ combinationsOf inp st, c.map Prod.fst = inp.light_paths := by
  intro c hc
  unfold combinationsOf at hc
  obtain ⟨v, hv, rfl⟩ := List.mem_map.mp hc
  have hvlen : v.length = (combinationValues inp st).length := mem_listProduct_length hv
  have hklen : (combinationKeys inp st).length = (combinationValues inp st).length := by
    unfold combinationKeys combinationValues
    simp
  rw [List.map_fst_zip _ _ (by rw [hklen, hvlen])]
  exact combinationKeys_eq inp st hnd

/-- Closed form of the schedule entry for a non-static light path: the list
of that light path's selected values across occupied hours. -/
lemma dictLookup_grid_states_schedule (inp : SchedInput) (st : ShadeTransInput)
    (hWF : SchedWF inp) (lp : String) (hlpmem : lp ∈ inp.light_paths)
    (hlpstatic : lp ≠ "__static_apertures__")
    (hne : selected_combinationsOf inp st ≠ []) :
    dictLookup (grid_states_scheduleOf inp st) lp =
      some ((selected_combinationsOf inp st).map
        (fun c => (dictLookup c lp).getD 0)) := by
  have hsel_all : ∀ c ∈ selected_combinationsOf inp st,
      (c.map Prod.fst).Nodup ∧ lp ∈ c.map Prod.fst := by
    intro c hc
    have hcc := selected_mem_combinations inp st hWF.lp_nodup c hc
    have hk := combinations_keys inp st hWF.lp_nodup c hcc
    rw [hk]
    exact ⟨hWF.lp_nodup, hlpmem⟩
  obtain ⟨c0, rest, hsel⟩ := List.exists_cons_of_ne_nil hne
  obtain ⟨hnd0, hmem0⟩ := hsel_all c0 (by rw [hsel]; simp)
  obtain ⟨v, hv⟩ := Option.isSome_iff_exists.mp (dictLookup_isSome_of_mem_keys hmem0)
  have hmemc0 : (lp, v) ∈ c0 := dictLookup_some_mem hv
  have hstep : dictLookup (scheduleInnerFold c0 []) lp = some [v] := by
    rw [dictLookup_scheduleInnerFold c0 [] lp v hnd0 hmemc0 hlpstatic]
    rfl
  rw [grid_states_scheduleOf_eq_foldl, hsel]
  simp only [List.foldl_cons]
  rw [dictLookup_schedule_foldl rest _ lp [v] hlpstatic
    (fun c' hc' => hsel_all c' (by rw [hsel]; exact List.mem_cons_of_mem c0 hc')) hstep]
  simp [hv]

/-- **C10** (`leed.py` lines 404-420): at an occupied hour where every
enumerated combination violates the 2 % limit (the whole marked column is
`-inf`), `np.argmax` over the column returns index `0`, so the scheduler
still appends a schedule entry for that hour: the first combination in
enumeration order, which carries the fully-open multiplier `1` for every
aperture group. -/
theorem leed_states_schedule_fail_hour_defaults_open
    (inp : SchedInput) (st : ShadeTransInput) (hWF : SchedWF inp) (h j : ℕ)
    (hh : h < (occIndices inp.occ_mask).length)
    (hj : j = (occIndices inp.occ_mask).getD h 0)
    (hallinv : ∀ c ∈ combinationsOf inp st,
      markInvalid (overlit_fraction inp c j) = ⊥) :
    (max_indicesOf inp st).getD h 0 = 0 ∧
    (selected_combinationsOf inp st).getD h [] = (combinationsOf inp st).getD 0 [] ∧
    (∀ p ∈ (combinationsOf inp st).getD 0 [], p.2 = 1) ∧
    (∀ lp ∈ inp.light_paths, lp ≠ "__static_apertures__" →
      ∃ l, dictLookup (grid_states_scheduleOf inp st) lp = some l ∧
        l.length = (occIndices inp.occ_mask).length ∧ l.getD h 0 = 1) := by
  subst hj
  set j := (occIndices inp.occ_mask).getD h 0 with hjdef
  have hjmem : j ∈ occIndices inp.occ_mask := by
    rw [hjdef, List.getD_eq_getElem _ _ hh]
    exact List.getElem_mem hh
  have hjn : j < inp.sun_up_hours.length :=
    hWF.mask_len ▸ occIndices_lt j hjmem
  have harrlen := array_combinations_length inp st
  have hallbot : ∀ y ∈ (array_combinationsOf inp st).map (fun row => row.getD j ⊥),
      y = ⊥ := by
    intro y hy
    obtain ⟨row, hrowmem, rfl⟩ := List.mem_map.mp hy
    obtain ⟨r, hr, hreq⟩ := List.getElem_of_mem hrowmem
    have hrc : r < (combinationsOf inp st).length := harrlen ▸ hr
    have hcmem : (combinationsOf inp st).getD r [] ∈ combinationsOf inp st := by
      rw [List.getD_eq_getElem _ _ hrc]
      exact List.getElem_mem hrc
    have := array_combinations_getD inp st hrc hjn
    rw [List.getD_eq_getElem _ _ hr, hreq] at this
    rw [this]
    exact hallinv _ hcmem
  have part1 : (max_indicesOf inp st).getD h 0 = 0 := by
    rw [max_indicesOf_getD inp st hWF hh]
    exact argmaxIdx_eq_zero_of_all_bot hallbot
  have part2 : (selected_combinationsOf inp st).getD h [] =
      (combinationsOf inp st).getD 0 [] := by
    rw [selected_combinationsOf_getD inp st (by rw [nOccOf_eq inp st hWF]; exact hh),
      part1]
  have hvals_ne : ∀ l ∈ combinationValues inp st, l ≠ [] := by
    rw [combinationValues_eq inp st hWF.lp_nodup]
    intro l hl
    obtain ⟨lp, _, rfl⟩ := List.mem_map.mp hl
    simp [resolvedEntry]
  have hprod_ne : listProduct (combinationValues inp st) ≠ [] :=
    listProduct_ne_nil hvals_ne
  have hc0 : (combinationsOf inp st).getD 0 [] =
      (combinationKeys inp st).zip
        (inp.light_paths.map (fun _ => (1 : ℚ))) := by
    unfold combinationsOf
    rw [getD_map_of_lt _ _ (List.length_pos.mpr hprod_ne) _ []]
    have hgetd0 : (listProduct (combinationValues inp st)).getD 0 [] =
        (listProduct (combinationValues inp st)).headD [] := by
      obtain ⟨v0, vs, hveq⟩ := List.exists_cons_of_ne_nil hprod_ne
      rw [hveq]
      rfl
    rw [hgetd0, listProduct_headD (0 : ℚ) hvals_ne,
      combinationValues_eq inp st hWF.lp_nodup, List.map_map]
    rfl
  have part3 : ∀ p ∈ (combinationsOf inp st).getD 0 [], p.2 = 1 := by
    intro p hp
    rw [hc0] at hp
    have h2 := (List.of_mem_zip hp).2
    obtain ⟨lp, _, hlp⟩ := List.mem_map.mp h2
    exact hlp.symm
  refine ⟨part1, part2, part3, ?_⟩
  intro lp hlpmem hlpstatic
  have hselne : selected_combinationsOf inp st ≠ [] := by
    intro hc
    have hlen := selected_combinationsOf_length inp st
    rw [hc, nOccOf_eq inp st hWF] at hlen
    simp at hlen
    omega
  have hlook := dictLookup_grid_states_schedule inp st hWF lp hlpmem hlpstatic hselne
  refine ⟨_, hlook, ?_, ?_⟩
  · rw [List.length_map, selected_combinationsOf_length inp st, nOccOf_eq inp st hWF]
  · have hhsel : h < (selected_combinationsOf inp st).length := by
      rw [selected_combinationsOf_length inp st, nOccOf_eq inp st hWF]
      exact hh
    rw [getD_map_of_lt _ _ hhsel _ [], part2]
    have hmem0 : lp ∈ ((combinationsOf inp st).getD 0 []).map Prod.fst := by
      have hcombo_ne := combinationsOf_ne_nil inp st hWF.lp_nodup
      have hc0mem : (combinationsOf inp st).getD 0 [] ∈ combinationsOf inp st := by
        rw [List.getD_eq_getElem _ _ (List.length_pos.mpr hcombo_ne)]
        exact List.getElem_mem _
      rw [combinations_keys inp st hWF.lp_nodup _ hc0mem]
      exact hlpmem
    obtain ⟨v, hv⟩ := Option.isSome_iff_exists.mp (dictLookup_isSome_of_mem_keys hmem0)
    have hv1 : v = 1 := part3 (lp, v) (dictLookup_some_mem hv)
    rw [hv, hv1]
    rfl

/-! ### Claims about the transmittance resolver -/

/-- **C6 counterexample**: the static-aperture identifier does NOT always
resolve to multiplier 1 — when the shade-transmittance mapping explicitly
assigns it a value, lines 277-280 run before the static check and the
explicit value wins. -/
theorem static_aperture_explicit_override :
    (shade_transmittance_per_light_path ["__static_apertures__"]
        (.mapping [("__static_apertures__", 1/2)]) []).2 =
      [("__static_apertures__", 1/2)] ∧
    (shade_transmittance_per_light_path ["__static_apertures__"]
        (.mapping [("__static_apertures__", 1/2)]) []).1 =
      [("__static_apertures__", [1, 1/2])] ∧
    ((1 : ℚ)/2 ≠ 1) := by
  refine ⟨rfl, rfl, by norm_num⟩

/-- **C6** (amended): every light path's candidate list starts with the
multiplier 1; the static identifier resolves to multiplier 1 whenever the
input is a scalar or a mapping that does not explicitly assign it; and under
a mapping input every non-static light path absent from the mapping gets the
default multiplier `0.05`, recorded as `0.05` in the accumulated global
map. -/
theorem shade_transmittance_resolver_policy
    (light_paths : List String) (st : ShadeTransInput) (d : StrDict ℚ) :
    (∀ p ∈ (shade_transmittance_per_light_path light_paths st d).1,
      p.2.headD 0 = 1) ∧
    ("__static_apertures__" ∈ light_paths →
      (∀ m, st = ShadeTransInput.mapping m →
        dictLookup m "__static_apertures__" = none) →
      dictLookup (shade_transmittance_per_light_path light_paths st d).1
          "__static_apertures__" = some [1, 1] ∧
      dictLookup (shade_transmittance_per_light_path light_paths st d).2
          "__static_apertures__" = some 1) ∧
    (∀ m, st = ShadeTransInput.mapping m →
      ∀ lp ∈ light_paths, lp ≠ "__static_apertures__" →
      dictLookup m lp = none →
      dictLookup (shade_transmittance_per_light_path light_paths st d).1 lp =
          some [1, 5/100] ∧
      dictLookup (shade_transmittance_per_light_path light_paths st d).2 lp =
          some (5/100)) := by
  rw [shade_transmittance_per_light_path_eq]
  refine ⟨?_, ?_, ?_⟩
  · intro p hp
    rcases mem_foldl_dictInsert (resolvedEntry st) light_paths [] hp with hq | hq
    · simp at hq
    · rw [hq]
      rfl
  · intro hmem hnone
    have hres : resolvedMultiplier st "__static_apertures__" = 1 := by
      cases st with
      | scalar v => simp [resolvedMultiplier]
      | mapping m =>
        simp [resolvedMultiplier, hnone m rfl]
    constructor
    · rw [dictLookup_foldl_dictInsert (resolvedEntry st) light_paths [] _]
      simp [hmem, resolvedEntry, hres]
    · rw [dictLookup_foldl_dictInsert (resolvedMultiplier st) light_paths d _]
      simp [hmem, hres]
  · intro m hst lp hlp hlpstatic hnone
    subst hst
    have hres : resolvedMultiplier (.mapping m) lp = 5/100 := by
      simp [resolvedMultiplier, hnone, hlpstatic]
    constructor
    · rw [dictLookup_foldl_dictInsert (resolvedEntry (.mapping m)) light_paths [] _]
      simp [hlp, resolvedEntry, hres]
    · rw [dictLookup_foldl_dictInsert (resolvedMultiplier (.mapping m)) light_paths d _]
      simp [hlp, hres]

/-! ### Cross-grid merge of per-aperture-group schedules -/

/-- Line 429 (state mode): identical-named aperture groups across grids merge
by per-hour logical OR — closed if any grid needs it closed. -/
def merge_states_schedule (a b : List Bool) : List Bool :=
  List.zipWith (fun x y => x || y) a b

/-- Line 431 (transmittance mode): per-hour minimum — the most attenuating
transmittance wins. -/
def merge_shd_trans_schedule (a b : List ℚ) : List ℚ :=
  List.zipWith min a b

lemma zipWith_assoc_of_assoc {α : Type} (f : α → α → α)
    (hf : ∀ x y z, f (f x y) z = f x (f y z)) :
    ∀ a b c : List α,
      List.zipWith f (List.zipWith f a b) c =
        List.zipWith f a (List.zipWith f b c) := by
  intro a
  induction a with
  | nil => intro b c; simp
  | cons x xs ih =>
    intro b c
    cases b with
    | nil => simp
    | cons y ys =>
      cases c with
      | nil => simp
      | cons z zs => simp [hf, ih]

/-- **C7** (`leed.py` lines 424-432): the cross-grid merge is commutative and
associative in both operating modes, so the building-wide schedule does not
depend on which grid's schedule is folded in first. -/
theorem cross_grid_merge_comm_assoc :
    (∀ a b : List Bool, merge_states_schedule a b = merge_states_schedule b a) ∧
    (∀ a b c : List Bool,
      merge_states_schedule (merge_states_schedule a b) c =
        merge_states_schedule a (merge_states_schedule b c)) ∧
    (∀ a b : List ℚ, merge_shd_trans_schedule a b = merge_shd_trans_schedule b a) ∧
    (∀ a b c : List ℚ,
      merge_shd_trans_schedule (merge_shd_trans_schedule a b) c =
        merge_shd_trans_schedule a (merge_shd_trans_schedule b c)) := by
  refine ⟨?_, ?_, ?_, ?_⟩
  · intro a b
    exact List.zipWith_comm_of_comm _ (fun x y => Bool.or_comm x y) a b
  · exact zipWith_assoc_of_assoc _ (fun x y z => Bool.or_assoc x y z)
  · intro a b
    exact List.zipWith_comm_of_comm _ (fun x y => min_comm x y) a b
  · exact zipWith_assoc_of_assoc _ (fun x y z => min_assoc x y z)

/-! ### Credit assignment (`leed_option_one`, lines 666-689) -/

/-- `summary['credits']`: an integer credit count or the qualitative
"Exemplary performance" marker. -/
inductive Credits where
  | num (n : ℤ)
  | exemplary
  deriving DecidableEq

/-- Lines 667-674: the base credit from the building sDA. -/
def summary_credits (sda : ℚ) : ℤ :=
  if sda ≥ 75 then 3
  else if sda ≥ 55 then 2
  else if sda ≥ 40 then 1
  else 0

/-- Lines 666-689: the credit decision.  Inputs: the compliance-failure
record, the building sDA (`summary['sda']`) and the per-grid sDA values
(`summary_grid[..]['sda']`); output: the credit and the optional note. -/
def credit_summary (fail_to_comply : StrDict (List ℕ)) (sda : ℚ)
    (grid_sdas : List ℚ) : Credits × Option String :=
  if fail_to_comply.isEmpty then
    if grid_sdas.all (fun s => decide (s ≥ 55)) then
      if summary_credits sda ≤ 2 then (.num (summary_credits sda + 1), none)
      else (.exemplary, none)
    else (.num (summary_credits sda), none)
  else
    (.num 0,
      some ("0 credits have been awarded. The following sensor grids have at least one hour where 2% of the floor area receives direct illuminance of 1000 lux or more: "
        ++ String.intercalate ", " (fail_to_comply.map Prod.fst) ++ "."))

/-- Skeleton of `leed_option_one` (`leed.py` lines 456-527 and 661-689): the
custom-schedule guard (lines 520-527) runs before any schedule or metric
computation.  Line 520 tests Python truthiness, `if not states_schedule:`,
under which both `None` and an empty dict are falsy and take the compute
path; only a non-empty custom dictionary reaches the `raise`.  With no
(non-empty) custom schedule the run derives the per-grid schedule and
compliance-failure record and — the metric formulas being external
collaborators, their sDA outputs are parameters — ends in the credit
decision.  A raised exception is an `Except.error`. -/
def leed_option_one_model (inp : SchedInput) (grid_name : String)
    (shade_transmittance : ShadeTransInput)
    (states_schedule : Option (StrDict (List ℚ))) (sda : ℚ)
    (grid_sdas : List ℚ) :
    Except String (StrDict (List ℚ) × StrDict (List ℕ) × (Credits × Option String)) :=
  if (states_schedule.getD []).isEmpty then
    let sched := leed_states_schedule_grid inp shade_transmittance
    let fail_to_comply : StrDict (List ℕ) :=
      if sched.2 ≠ [] then [(grid_name, sched.2)] else []
    Except.ok (sched.1, fail_to_comply, credit_summary fail_to_comply sda grid_sdas)
  else
    Except.error "NotImplementedError: Custom input for argument states_schedule is not yet implemented."

/-- **C2** (`leed.py` lines 666-680): with an empty compliance-failure record
the credit follows the tier table (sDA ≥ 75 → 3, ≥ 55 → 2, ≥ 40 → 1, else
0); when additionally every grid's sDA is ≥ 55, a base credit of at most 2
is incremented by one and a base credit of 3 becomes the qualitative
"Exemplary performance" marker. -/
theorem leed_option_one_credit_rule (sda : ℚ) (grid_sdas : List ℚ) :
    ((75 ≤ sda → summary_credits sda = 3) ∧
     (55 ≤ sda → sda < 75 → summary_credits sda = 2) ∧
     (40 ≤ sda → sda < 55 → summary_credits sda = 1) ∧
     (sda < 40 → summary_credits sda = 0)) ∧
    (¬ (∀ s ∈ grid_sdas, 55 ≤ s) →
      credit_summary [] sda grid_sdas = (.num (summary_credits sda), none)) ∧
    ((∀ s ∈ grid_sdas, 55 ≤ s) →
      (summary_credits sda ≤ 2 →
        credit_summary [] sda grid_sdas = (.num (summary_credits sda + 1), none)) ∧
      (summary_credits sda = 3 →
        credit_summary [] sda grid_sdas = (.exemplary, none))) := by
  refine ⟨⟨?_, ?_, ?_, ?_⟩, ?_, ?_⟩
  · intro h75
    simp [summary_credits, h75]
  · intro h55 h75
    have hn : ¬ (75 ≤ sda) := not_le.mpr h75
    simp [summary_credits, hn, h55]
  · intro h40 h55
    have hn75 : ¬ (75 ≤ sda) := not_le.mpr (lt_trans h55 (by norm_num))
    have hn55 : ¬ (55 ≤ sda) := not_le.mpr h55
    simp [summary_credits, hn75, hn55, h40]
  · intro h40
    have hn75 : ¬ (75 ≤ sda) := not_le.mpr (lt_trans h40 (by norm_num))
    have hn55 : ¬ (55 ≤ sda) := not_le.mpr (lt_trans h40 (by norm_num))
    have hn40 : ¬ (40 ≤ sda) := not_le.mpr h40
    simp [summary_credits, hn75, hn55, hn40]
  · intro hno
    have hall : (grid_sdas.all (fun s => decide (s ≥ 55))) = false := by
      rw [Bool.eq_false_iff]
      intro hc
      apply hno
      intro s hs
      simpa using List.all_eq_true.mp hc s hs
    simp [credit_summary, hall]
  · intro hyes
    have hall : (grid_sdas.all (fun s => decide (s ≥ 55))) = true :=
      List.all_eq_true.mpr (fun s hs => by simpa using hyes s hs)
    constructor
    · intro hle
      simp [credit_summary, hall, hle]
    · intro h3
      have hgt : ¬ (summary_credits sda ≤ 2) := by omega
      simp [credit_summary, hall, hgt]

/-- **C3** (`leed.py` lines 681-689): a non-empty compliance-failure record
forces the credit to 0 regardless of the sDA values and attaches the note
naming the offending grids; and the run completes normally (the model
returns a value, never an error, whenever no custom schedule is supplied). -/
theorem leed_option_one_fail_forces_zero (fail_to_comply : StrDict (List ℕ))
    (hne : fail_to_comply ≠ []) (sda : ℚ) (grid_sdas : List ℚ) :
    credit_summary fail_to_comply sda grid_sdas =
      (.num 0,
        some ("0 credits have been awarded. The following sensor grids have at least one hour where 2% of the floor area receives direct illuminance of 1000 lux or more: "
          ++ String.intercalate ", " (fail_to_comply.map Prod.fst) ++ ".")) ∧
    (∀ (inp : SchedInput) (grid_name : String) (st : ShadeTransInput),
      (leed_option_one_model inp grid_name st none sda grid_sdas).isOk = true) := by
  constructor
  · have hemp : fail_to_comply.isEmpty = false := by
      cases fail_to_comply with
      | nil => exact absurd rfl hne
      | cons p rest => rfl
    simp [credit_summary, hemp]
  · intro inp grid_name st
    rfl

/-- **C8 counterexample**: an out-of-range shade-transmittance value (2, which
violates the documented requirement 1 > value > 0) does not abort the run —
`leed_option_one` has no validation for it and proceeds normally, using the
value as a multiplier. -/
theorem invalid_shade_transmittance_not_rejected :
    ¬ ((0 : ℚ) < 2 ∧ (2 : ℚ) < 1) ∧
    (leed_option_one_model
      { grid_count := 1, light_paths := ["ap1"],
        direct := fun _ => [[2000]],
        sun_up_hours := [12], occ_mask := [true] }
      "grid" (.scalar 2) none 50 [50]).isOk = true := by
  constructor
  · intro h
    norm_num at h
  · rfl

/-- **C8** (amended, `leed.py` lines 520-527): supplying a non-empty custom
`states_schedule` aborts the run immediately with a `NotImplementedError`
before any schedule or metric computation (line 520 tests truthiness, so
`None` and the empty dict both take the normal compute path); no other input
validation occurs — in particular a shade-transmittance value is never
range-checked, and without a non-empty custom schedule the run always
completes. -/
theorem leed_option_one_custom_schedule_guard (inp : SchedInput)
    (grid_name : String) (st : ShadeTransInput)
    (ss : Option (StrDict (List ℚ))) (sda : ℚ) (grid_sdas : List ℚ) :
    (ss.getD [] ≠ [] →
      leed_option_one_model inp grid_name st ss sda grid_sdas =
        Except.error "NotImplementedError: Custom input for argument states_schedule is not yet implemented.") ∧
    (ss.getD [] = [] →
      (leed_option_one_model inp grid_name st ss sda grid_sdas).isOk = true) := by
  constructor
  · intro hne
    have hfalse : (ss.getD []).isEmpty = false := by
      cases h : ss.getD [] with
      | nil => exact absurd h hne
      | cons p rest => rfl
    simp [leed_option_one_model, hfalse]
  · intro heq
    have htrue : (ss.getD []).isEmpty = true := by rw [heq]; rfl
    simp [leed_option_one_model, htrue, Except.isOk, Except.toBool]

/-! ### Summary aggregation (`_create_grid_summary` / `_leed_summary`,
lines 37-209) -/

/-- Grid metadata from the results store (spec §3 grid descriptor). -/
structure GridInfo where
  name : String
  full_id : String
  count : ℕ

/-- Python `round(x, 2)` modelled exactly over `ℚ`: round half to even at the
second decimal. -/
def round_half_even (q : ℚ) : ℤ :=
  if Int.fract q < 1/2 then ⌊q⌋
  else if 1/2 < Int.fract q then ⌊q⌋ + 1
  else if ⌊q⌋ % 2 = 0 then ⌊q⌋ else ⌊q⌋ + 1

def round2 (q : ℚ) : ℚ := (round_half_even (q * 100) : ℚ) / 100

/-- Per-grid summary record: the two dict shapes built by
`_create_grid_summary` (lines 71-98), area-weighted fields or
sensor-count fields.  The pass counts in the count shape go through
`int(round(., 2))`, which on the non-negative counts occurring here is the
floor of the rounded value. -/
inductive GridSummary where
  | area (name full_id : String) (ase sda sda_blinds_up sda_blinds_down : ℚ)
      (floor_area_passing_ase floor_area_passing_sda total_floor_area : ℚ)
      (ase_note : Option String)
  | count (name full_id : String) (ase sda sda_blinds_up sda_blinds_down : ℚ)
      (sensor_count_passing_ase sensor_count_passing_sda : ℤ)
      (total_sensor_count : ℚ) (ase_note : Option String)

def GridSummary.areaWeighted : GridSummary → Bool
  | .area .. => true
  | .count .. => false

/-- Building summary: the two shapes of `summary` (lines 162-166 and
201-207). -/
inductive Summary where
  | area (ase sda floor_area_passing_ase floor_area_passing_sda
      total_floor_area : ℚ)
  | count (ase sda : ℚ) (sensor_count_passing_ase sensor_count_passing_sda : ℤ)
      (total_sensor_count : ℕ)

def Summary.areaWeighted : Summary → Bool
  | .area .. => true
  | .count .. => false

/-- Embedding of `_create_grid_summary` (lines 37-102): the advisory note
when ASE exceeds 10 %, then the area-weighted or sensor-count record. -/
def _create_grid_summary (grid_info : GridInfo)
    (sda_grid sda_blinds_up_grid sda_blinds_down_grid ase_grid
      pass_sda pass_ase total_floor : ℚ) (area_weighted : Bool) : GridSummary :=
  let ase_note : Option String :=
    if ase_grid > 10 then
      some ("The Annual Sunlight Exposure is greater than 10% for space: "
        ++ grid_info.name
        ++ ". Identify in writing how the space is designed to address glare.")
    else none
  if area_weighted then
    .area grid_info.name grid_info.full_id (round2 ase_grid) (round2 sda_grid)
      (round2 sda_blinds_up_grid) (round2 sda_blinds_down_grid)
      (round2 pass_ase) (round2 pass_sda) (round2 total_floor) ase_note
  else
    .count grid_info.name grid_info.full_id (round2 ase_grid) (round2 sda_grid)
      (round2 sda_blinds_up_grid) (round2 sda_blinds_down_grid)
      ⌊round2 pass_ase⌋ ⌊round2 pass_sda⌋ total_floor ase_note

/-- `grid_area[mask].sum()`: summed area of the sensors whose pass flag is
set. -/
def masked_sum (grid_area : List ℚ) (mask : List Bool) : ℚ :=
  (List.zipWith (fun a p => if p then a else 0) grid_area mask).sum

/-- `pass.sum()` on a boolean vector: the number of passing sensors. -/
def bool_sum (mask : List Bool) : ℕ := mask.count true

/-- Lines 128-160: the area-weighted loop of `_leed_summary`, zipping the six
per-grid lists (zip truncation at the shortest list matches Python's `zip`),
returning the accumulated (total area, area passing ASE, area passing sDA)
and the per-grid summaries. -/
def _leed_summary_area :
    List (List Bool) → List (List Bool) → List (Option (List ℚ)) →
    List GridInfo → List (List Bool) → List (List Bool) →
    (ℚ × ℚ × ℚ) × List GridSummary
  | pass_ase :: ases, pass_sda :: sdas, grid_area :: areas, grid_info :: infos,
      pass_bu :: bus, pass_bd :: bds =>
    let ga := grid_area.getD []
    let total_grid_area := ga.sum
    let area_pass_ase := masked_sum ga pass_ase
    let ase_grid := (total_grid_area - area_pass_ase) / total_grid_area * 100
    let area_pass_sda := masked_sum ga pass_sda
    let area_pass_sda_blinds_up := masked_sum ga pass_bu
    let area_pass_sda_blinds_down := masked_sum ga pass_bd
    let sda_grid := area_pass_sda / total_grid_area * 100
    let sda_blinds_up_grid := area_pass_sda_blinds_up / total_grid_area * 100
    let sda_blinds_down_grid := area_pass_sda_blinds_down / total_grid_area * 100
    let grid_summary := _create_grid_summary grid_info sda_grid
      sda_blinds_up_grid sda_blinds_down_grid ase_grid area_pass_sda
      area_pass_ase total_grid_area true
    let rest := _leed_summary_area ases sdas areas infos bus bds
    ((rest.1.1 + total_grid_area, rest.1.2.1 + area_pass_ase,
      rest.1.2.2 + area_pass_sda), grid_summary :: rest.2)
  | _, _, _, _, _, _ => ((0, 0, 0), [])

/-- Lines 168-199: the sensor-count loop of `_leed_summary`. -/
def _leed_summary_count :
    List (List Bool) → List (List Bool) → List GridInfo →
    List (List Bool) → List (List Bool) →
    (ℕ × ℕ × ℕ) × List GridSummary
  | pass_ase :: ases, pass_sda :: sdas, grid_info :: infos,
      pass_bu :: bus, pass_bd :: bds =>
    let grid_count := grid_info.count
    let sensor_count_pass_ase := bool_sum pass_ase
    let ase_grid := ((grid_count : ℚ) - sensor_count_pass_ase) / grid_count * 100
    let sensor_count_pass_sda := bool_sum pass_sda
    let sensor_count_pass_sda_blinds_up := bool_sum pass_bu
    let sensor_count_pass_sda_blinds_down := bool_sum pass_bd
    let sda_grid := (sensor_count_pass_sda : ℚ) / grid_count * 100
    let sda_blinds_up_grid := (sensor_count_pass_sda_blinds_up : ℚ) / grid_count * 100
    let sda_blinds_down_grid := (sensor_count_pass_sda_blinds_down : ℚ) / grid_count * 100
    let grid_summary := _create_grid_summary grid_info sda_grid
      sda_blinds_up_grid sda_blinds_down_grid ase_grid
      (sensor_count_pass_sda : ℚ) (sensor_count_pass_ase : ℚ)
      (grid_count : ℚ) false
    let rest := _leed_summary_count ases sdas infos bus bds
    ((rest.1.1 + grid_count, rest.1.2.1 + sensor_count_pass_ase,
      rest.1.2.2 + sensor_count_pass_sda), grid_summary :: rest.2)
  | _, _, _, _, _ => ((0, 0, 0), [])

/-- Embedding of `_leed_summary` (lines 105-209): area-weighted aggregation
when every grid has a floor-area array, sensor-count aggregation
otherwise. -/
def _leed_summary (pass_ase_grids pass_sda_grids : List (List Bool))
    (grids_info : List GridInfo) (grid_areas : List (Option (List ℚ)))
    (pass_sda_blinds_up_grids pass_sda_blinds_down_grids : List (List Bool)) :
    Summary × List GridSummary :=
  if grid_areas.all (fun ga => ga.isSome) then
    let r := _leed_summary_area pass_ase_grids pass_sda_grids grid_areas
      grids_info pass_sda_blinds_up_grids pass_sda_blinds_down_grids
    let total_area := r.1.1
    let total_area_pass_ase := r.1.2.1
    let total_area_pass_sda := r.1.2.2
    (.area (round2 ((total_area - total_area_pass_ase) / total_area * 100))
      (round2 (total_area_pass_sda / total_area * 100))
      total_area_pass_ase total_area_pass_sda total_area, r.2)
  else
    let r := _leed_summary_count pass_ase_grids pass_sda_grids grids_info
      pass_sda_blinds_up_grids pass_sda_blinds_down_grids
    let total_sensor_count := r.1.1
    let total_pass_ase := r.1.2.1
    let total_pass_sda := r.1.2.2
    (.count
      (round2 ((((total_sensor_count : ℚ)) - total_pass_ase) /
        total_sensor_count * 100))
      (round2 ((total_pass_sda : ℚ) / total_sensor_count * 100))
      (total_pass_ase : ℤ) (total_pass_sda : ℤ) total_sensor_count, r.2)

lemma leed_summary_area_grids (a b : List (List Bool))
    (c : List (Option (List ℚ))) (d : List GridInfo) (e f : List (List Bool)) :
    ∀ gs ∈ (_leed_summary_area a b c d e f).2, gs.areaWeighted = true := by
  induction a generalizing b c d e f with
  | nil => simp [_leed_summary_area]
  | cons x xs ih =>
    cases b with
    | nil => simp [_leed_summary_area]
    | cons y ys =>
      cases c with
      | nil => simp [_leed_summary_area]
      | cons z zs =>
        cases d with
        | nil => simp [_leed_summary_area]
        | cons w ws =>
          cases e with
          | nil => simp [_leed_summary_area]
          | cons u us =>
            cases f with
            | nil => simp [_leed_summary_area]
            | cons v vs =>
              intro gs hgs
              simp only [_leed_summary_area] at hgs
              rcases List.mem_cons.mp hgs with h | h
              · rw [h]
                simp [_create_grid_summary, GridSummary.areaWeighted]
              · exact ih ys zs ws us vs gs h

lemma leed_summary_count_grids (a b : List (List Bool)) (d : List GridInfo)
    (e f : List (List Bool)) :
    ∀ gs ∈ (_leed_summary_count a b d e f).2, gs.areaWeighted = false := by
  induction a generalizing b d e f with
  | nil => simp [_leed_summary_count]
  | cons x xs ih =>
    cases b with
    | nil => simp [_leed_summary_count]
    | cons y ys =>
      cases d with
      | nil => simp [_leed_summary_count]
      | cons w ws =>
        cases e with
        | nil => simp [_leed_summary_count]
        | cons u us =>
          cases f with
          | nil => simp [_leed_summary_count]
          | cons v vs =>
            intro gs hgs
            simp only [_leed_summary_count] at hgs
            rcases List.mem_cons.mp hgs with h | h
            · rw [h]
              simp [_create_grid_summary, GridSummary.areaWeighted]
            · exact ih ys ws us vs gs h

/-- **C9** (`leed.py` lines 125-209): one weighting mode per run — if a
floor-area array is present for every grid, the building summary and every
per-grid summary use the area-weighted fields; if any grid lacks one, every
summary uses the sensor-count fields.  The modes are never mixed. -/
theorem leed_summary_weighting_all_or_nothing
    (pass_ase_grids pass_sda_grids : List (List Bool))
    (grids_info : List GridInfo) (grid_areas : List (Option (List ℚ)))
    (pass_bu pass_bd : List (List Bool)) :
    ((∀ ga ∈ grid_areas, ga.isSome) →
      ((_leed_summary pass_ase_grids pass_sda_grids grids_info grid_areas
          pass_bu pass_bd).1.areaWeighted = true ∧
        ∀ gs ∈ (_leed_summary pass_ase_grids pass_sda_grids grids_info
          grid_areas pass_bu pass_bd).2, gs.areaWeighted = true)) ∧
    ((∃ ga ∈ grid_areas, ga = none) →
      ((_leed_summary pass_ase_grids pass_sda_grids grids_info grid_areas
          pass_bu pass_bd).1.areaWeighted = false ∧
        ∀ gs ∈ (_leed_summary pass_ase_grids pass_sda_grids grids_info
          grid_areas pass_bu pass_bd).2, gs.areaWeighted = false)) := by
  constructor
  · intro hall
    have hcond : (grid_areas.all (fun ga => ga.isSome)) = true :=
      List.all_eq_true.mpr (fun ga hga => hall ga hga)
    constructor
    · simp [_leed_summary, hcond, Summary.areaWeighted]
    · intro gs hgs
      simp only [_leed_summary, hcond, if_true] at hgs
      exact leed_summary_area_grids _ _ _ _ _ _ gs hgs
  · intro hex
    obtain ⟨ga, hga, hganone⟩ := hex
    have hcond : (grid_areas.all (fun ga => ga.isSome)) = false := by
      rw [Bool.eq_false_iff]
      intro hc
      have := List.all_eq_true.mp hc ga hga
      rw [hganone] at this
      simp at this
    constructor
    · simp [_leed_summary, hcond, Summary.areaWeighted]
    · intro gs hgs
      simp only [_leed_summary, hcond, if_false, Bool.false_eq_true] at hgs
      exact leed_summary_count_grids _ _ _ _ _ gs hgs

/-! ### The always-open / always-closed sDA baselines
(`leed_option_one`, lines 589-657, simulated-states branch) -/

/-- Inputs to the per-grid sDA baseline computation in simulated-states mode:
sensor count, sun-up-hour count, flattened light paths, per-(light path,
state) total-illuminance matrices, and the occupancy mask — all supplied by
the external results store. -/
structure SdaGridInput where
  count : ℕ
  n_hours : ℕ
  light_paths : List String
  total : String → ℕ → Mat
  occ_mask : List Bool

/-- Lines 597-598: `np.zeros((grid_info['count'], len(results.sun_up_hours)))`
filtered to the occupied columns. -/
def base_zero_array (g : SdaGridInput) : Mat :=
  filter_array2d (List.replicate g.count (List.replicate g.n_hours (0 : ℚ)))
    g.occ_mask

/-- Lines 600-625 (`use_states` branch), blinds-up baseline: state 0 of every
light path (lines 610-613 for non-static, lines 620-624 for the static
aperture — both append the state-0 matrix once), on top of the zero
array. -/
def arrays_blinds_up_states (g : SdaGridInput) : List Mat :=
  g.light_paths.foldl
    (fun arrs light_path =>
      arrs ++ [filter_array2d (g.total light_path 0) g.occ_mask])
    [base_zero_array g]

/-- Lines 601-625 (`use_states` branch), blinds-down baseline: for a
non-static light path the filtered state-1 matrix is appended TWICE (the
source repeats `arrays_blinds_down.append(array_filter)` on lines 617 and
618); the static aperture's state-0 matrix is appended once. -/
def arrays_blinds_down_states (g : SdaGridInput) : List Mat :=
  g.light_paths.foldl
    (fun arrs light_path =>
      if light_path ≠ "__static_apertures__" then
        arrs ++ [filter_array2d (g.total light_path 1) g.occ_mask,
          filter_array2d (g.total light_path 1) g.occ_mask]
      else
        arrs ++ [filter_array2d (g.total light_path 0) g.occ_mask])
    [base_zero_array g]

/-- Line 645: `array_blinds_up = sum(arrays_blinds_up)`. -/
def array_blinds_up_states (g : SdaGridInput) : Mat :=
  matSum (arrays_blinds_up_states g)

/-- Line 646: `array_blinds_down = sum(arrays_blinds_down)`. -/
def array_blinds_down_states (g : SdaGridInput) : Mat :=
  matSum (arrays_blinds_down_states g)

/-- Stated from the specification for comparison (§4.3): the always-closed
baseline is the sum over light paths of each light path's total-illuminance
matrix with every controllable aperture group forced fully closed (simulated
state 1; the static aperture has only its single state 0), each light path's
matrix contributing exactly once to the sum. -/
def spec_blinds_down_array (g : SdaGridInput) : Mat :=
  matSum ([base_zero_array g] ++ g.light_paths.map (fun light_path =>
    if light_path ≠ "__static_apertures__" then
      filter_array2d (g.total light_path 1) g.occ_mask
    else
      filter_array2d (g.total light_path 0) g.occ_mask))

/-- Modelled from the spec: `da_array2d` of
`honeybee_radiance_postprocess.metrics` (not under `src/`); per §4.3/§6 a
sensor's daylight autonomy is the percentage of occupied time its
illuminance meets or exceeds the threshold, the array being already
restricted to occupied columns. -/
def da_array2d (array : Mat) (total_occ : ℕ) (threshold : ℚ) : List ℚ :=
  array.map (fun row =>
    ((row.filter (fun x => decide (threshold ≤ x))).length : ℚ) / total_occ * 100)

/-- A one-sensor, one-hour, one-light-path grid whose closed-state (state 1)
total illuminance is 200 lux. -/
def exGridC5 : SdaGridInput :=
  { count := 1
    n_hours := 1
    light_paths := ["ap1"]
    total := fun lp state => if lp = "ap1" ∧ state = 1 then [[200]] else [[0]]
    occ_mask := [true] }

/-- **C5** (`leed.py` lines 603-646): in simulated-states mode the
always-closed baseline does NOT equal the once-per-light-path sum the
specification describes: the duplicated append on lines 617-618 doubles each
non-static light path's state-1 matrix.  At `exGridC5` the code's baseline
array is `[[400]]` where the once-only sum is `[[200]]`, and with the
default 300 lux threshold the resulting daylight autonomy flips from 0 % to
100 %. -/
theorem blinds_down_baseline_double_count :
    array_blinds_down_states exGridC5 = [[400]] ∧
    spec_blinds_down_array exGridC5 = [[200]] ∧
    da_array2d (array_blinds_down_states exGridC5) 1 300 = [100] ∧
    da_array2d (spec_blinds_down_array exGridC5) 1 300 = [0] := by
  have hs : ¬ (("ap1" : String) = "__static_apertures__") := by decide
  refine ⟨?_, ?_, ?_, ?_⟩ <;>
    norm_num [array_blinds_down_states, arrays_blinds_down_states,
      spec_blinds_down_array, exGridC5, base_zero_array, filter_array2d,
      filter_row, matSum, matAdd, da_array2d, List.replicate, List.foldl,
      List.zipWith, List.filter, hs]

/-! ### Concrete instances -/

/-- A one-sensor, one-light-path grid with 2000 lux direct illuminance at its
single sun-up hour (hour of year 12): no candidate combination with
multiplier 1/2 keeps the overlit fraction within 2 %. -/
def exGrid : SchedInput :=
  { grid_count := 1
    light_paths := ["ap1"]
    direct := fun _ => [[2000]]
    sun_up_hours := [12]
    occ_mask := [true] }

lemma exGrid_wf : SchedWF exGrid := ⟨rfl, by decide, by decide⟩

theorem leed_states_schedule_two_percent_rule_witness :
    (exGrid.sun_up_hours.getD 0 0 ∉ failHoysOf exGrid (.scalar (1/2)) →
      overlit_fraction exGrid
        ((selected_combinationsOf exGrid (.scalar (1/2))).getD 0 []) 0 ≤ 2/100) ∧
    (exGrid.sun_up_hours.getD 0 0 ∈ failHoysOf exGrid (.scalar (1/2)) →
      ∀ c ∈ combinationsOf exGrid (.scalar (1/2)),
        2/100 < overlit_fraction exGrid c 0) :=
  leed_states_schedule_two_percent_rule exGrid (.scalar (1/2)) exGrid_wf 0 0
    (by decide) (by decide)

/-- A grid that is never overlit: every candidate combination is valid at its
single occupied hour. -/
def exGridValid : SchedInput :=
  { grid_count := 1
    light_paths := ["ap1"]
    direct := fun _ => [[0]]
    sun_up_hours := [12]
    occ_mask := [true] }

theorem leed_states_schedule_selects_first_max_witness :
    (max_indicesOf exGridValid (.scalar 2)).getD 0 0 <
      (combinationsOf exGridValid (.scalar 2)).length ∧
    markInvalid (overlit_fraction exGridValid
      ((combinationsOf exGridValid (.scalar 2)).getD
        ((max_indicesOf exGridValid (.scalar 2)).getD 0 0) []) 0) ≠ ⊥ ∧
    (∀ r, r < (combinationsOf exGridValid (.scalar 2)).length →
      markInvalid (overlit_fraction exGridValid
        ((combinationsOf exGridValid (.scalar 2)).getD r []) 0) ≠ ⊥ →
      overlit_fraction exGridValid
        ((combinationsOf exGridValid (.scalar 2)).getD r []) 0 ≤
        overlit_fraction exGridValid
          ((combinationsOf exGridValid (.scalar 2)).getD
            ((max_indicesOf exGridValid (.scalar 2)).getD 0 0) []) 0) ∧
    (∀ r, r < (max_indicesOf exGridValid (.scalar 2)).getD 0 0 →
      markInvalid (overlit_fraction exGridValid
        ((combinationsOf exGridValid (.scalar 2)).getD r []) 0) <
      markInvalid (overlit_fraction exGridValid
        ((combinationsOf exGridValid (.scalar 2)).getD
          ((max_indicesOf exGridValid (.scalar 2)).getD 0 0) []) 0)) ∧
    (selected_combinationsOf exGridValid (.scalar 2)).getD 0 [] =
      (combinationsOf exGridValid (.scalar 2)).getD
        ((max_indicesOf exGridValid (.scalar 2)).getD 0 0) [] :=
  leed_states_schedule_selects_first_max exGridValid (.scalar 2)
    ⟨rfl, by decide, by decide⟩ (by decide) 0 0
    ((max_indicesOf exGridValid (.scalar 2)).getD 0 0)
    (by decide) (by decide) rfl
    ⟨[("ap1", 1)], by decide, by
      norm_num [markInvalid, overlit_fraction, overlit_count,
        combination_array, matSum, exGridValid, List.filter]⟩

theorem leed_states_schedule_fail_hour_defaults_open_witness :
    (max_indicesOf exGrid (.scalar 1)).getD 0 0 = 0 ∧
    (selected_combinationsOf exGrid (.scalar 1)).getD 0 [] =
      (combinationsOf exGrid (.scalar 1)).getD 0 [] ∧
    (∀ p ∈ (combinationsOf exGrid (.scalar 1)).getD 0 [], p.2 = 1) ∧
    (∀ lp ∈ exGrid.light_paths, lp ≠ "__static_apertures__" →
      ∃ l, dictLookup (grid_states_scheduleOf exGrid (.scalar 1)) lp = some l ∧
        l.length = (occIndices exGrid.occ_mask).length ∧ l.getD 0 0 = 1) :=
  leed_states_schedule_fail_hour_defaults_open exGrid (.scalar 1) exGrid_wf 0 0
    (by decide) (by decide)
    (by
      intro c hc
      have hcombos : combinationsOf exGrid (.scalar 1) =
          [[("ap1", 1)], [("ap1", 1)]] := rfl
      rw [hcombos] at hc
      have hc1 : c = [("ap1", (1 : ℚ))] := by
        rcases List.mem_cons.mp hc with h | h
        · exact h
        · rcases List.mem_cons.mp h with h' | h'
          · exact h'
          · simp at h'
      rw [hc1]
      norm_num [markInvalid, overlit_fraction, overlit_count,
        combination_array, matSum, exGrid, List.filter])

theorem leed_option_one_credit_rule_witness :
    (((75 : ℚ) ≤ 80 → summary_credits 80 = 3) ∧
     ((55 : ℚ) ≤ 80 → (80 : ℚ) < 75 → summary_credits 80 = 2) ∧
     ((40 : ℚ) ≤ 80 → (80 : ℚ) < 55 → summary_credits 80 = 1) ∧
     ((80 : ℚ) < 40 → summary_credits 80 = 0)) ∧
    (¬ (∀ s ∈ [(60 : ℚ)], 55 ≤ s) →
      credit_summary [] 80 [60] = (.num (summary_credits 80), none)) ∧
    ((∀ s ∈ [(60 : ℚ)], 55 ≤ s) →
      (summary_credits 80 ≤ 2 →
        credit_summary [] 80 [60] = (.num (summary_credits 80 + 1), none)) ∧
      (summary_credits 80 = 3 →
        credit_summary [] 80 [60] = (.exemplary, none))) :=
  leed_option_one_credit_rule 80 [60]

theorem leed_option_one_fail_forces_zero_witness :
    credit_summary [("RoomA", [12])] 80 [60] =
      (.num 0,
        some ("0 credits have been awarded. The following sensor grids have at least one hour where 2% of the floor area receives direct illuminance of 1000 lux or more: "
          ++ String.intercalate ", " ([("RoomA", [12])].map Prod.fst) ++ ".")) ∧
    (∀ (inp : SchedInput) (grid_name : String) (st : ShadeTransInput),
      (leed_option_one_model inp grid_name st none 80 [60]).isOk = true) :=
  leed_option_one_fail_forces_zero [("RoomA", [12])] (by simp) 80 [60]

theorem shade_transmittance_resolver_policy_witness :
    (∀ p ∈ (shade_transmittance_per_light_path ["__static_apertures__", "ap1"]
        (.mapping []) []).1, p.2.headD 0 = 1) ∧
    ("__static_apertures__" ∈ ["__static_apertures__", "ap1"] →
      (∀ m, ShadeTransInput.mapping ([] : StrDict ℚ) = ShadeTransInput.mapping m →
        dictLookup m "__static_apertures__" = none) →
      dictLookup (shade_transmittance_per_light_path ["__static_apertures__", "ap1"]
          (.mapping []) []).1 "__static_apertures__" = some [1, 1] ∧
      dictLookup (shade_transmittance_per_light_path ["__static_apertures__", "ap1"]
          (.mapping []) []).2 "__static_apertures__" = some 1) ∧
    (∀ m, ShadeTransInput.mapping ([] : StrDict ℚ) = ShadeTransInput.mapping m →
      ∀ lp ∈ ["__static_apertures__", "ap1"], lp ≠ "__static_apertures__" →
      dictLookup m lp = none →
      dictLookup (shade_transmittance_per_light_path ["__static_apertures__", "ap1"]
          (.mapping []) []).1 lp = some [1, 5/100] ∧
      dictLookup (shade_transmittance_per_light_path ["__static_apertures__", "ap1"]
          (.mapping []) []).2 lp = some (5/100)) :=
  shade_transmittance_resolver_policy ["__static_apertures__", "ap1"]
    (.mapping []) []

theorem leed_option_one_custom_schedule_guard_witness :
    (((some [("ap1", [1])] : Option (StrDict (List ℚ))).getD [] ≠ [] →
      leed_option_one_model exGrid "grid" (.scalar 2) (some [("ap1", [1])]) 50 [50] =
        Except.error "NotImplementedError: Custom input for argument states_schedule is not yet implemented.") ∧
    ((some [("ap1", [1])] : Option (StrDict (List ℚ))).getD [] = [] →
      (leed_option_one_model exGrid "grid" (.scalar 2) (some [("ap1", [1])]) 50 [50]).isOk = true)) :=
  leed_option_one_custom_schedule_guard exGrid "grid" (.scalar 2)
    (some [("ap1", [1])]) 50 [50]

theorem leed_summary_weighting_all_or_nothing_witness :
    ((∀ ga ∈ [some [(2 : ℚ)]], ga.isSome) →
      ((_leed_summary [[true]] [[true]] [⟨"g", "g", 1⟩] [some [2]]
          [[true]] [[true]]).1.areaWeighted = true ∧
        ∀ gs ∈ (_leed_summary [[true]] [[true]] [⟨"g", "g", 1⟩] [some [2]]
          [[true]] [[true]]).2, gs.areaWeighted = true)) ∧
    ((∃ ga ∈ [some [(2 : ℚ)]], ga = none) →
      ((_leed_summary [[true]] [[true]] [⟨"g", "g", 1⟩] [some [2]]
          [[true]] [[true]]).1.areaWeighted = false ∧
        ∀ gs ∈ (_leed_summary [[true]] [[true]] [⟨"g", "g", 1⟩] [some [2]]
          [[true]] [[true]]).2, gs.areaWeighted = false)) :=
  leed_summary_weighting_all_or_nothing [[true]] [[true]] [⟨"g", "g", 1⟩]
    [some [2]] [[true]] [[true]]
